import Mathlib

set_option maxHeartbeats 1000000

/-
Verification of the "sorry" CLI tool (a terminal assistant).

The development shallowly embeds the string-processing core of the
repository:
  * src/history.rs : shell-history parsing (zsh extended format with
    multi-line continuations, bash format), self-invocation filtering,
    the last-N window, and prompt formatting;
  * src/config.rs  : the Config data model and its JSON persistence
    (serde serialization is modelled by an executable JSON document
    type together with a text-level pretty printer and parser);
  * src/api.rs     : the response-handling portion of the LLM call
    (success/error status, structured error bodies, choice extraction).

File-system and network I/O are factored out: functions receive the
file contents / HTTP status / response body as explicit arguments.
Rust strings are modelled by Lean strings (lists of characters), and
all definitions are executable.
-/

-- ===========================================================================
-- String primitives (models of the Rust std library functions used)
-- ===========================================================================

/-- The Unicode White_Space characters, as recognised by Rust's
char::is_whitespace. -/
def is_rust_whitespace (c : Char) : Bool :=
  c == ' ' || c == '\t' || c == '\n' || c == '\x0B' || c == '\x0C' || c == '\r' ||
  c == '\u0085' || c == '\u00A0' || c == '\u1680' ||
  ('\u2000' ≤ c && c ≤ '\u200A') ||
  c == '\u2028' || c == '\u2029' || c == '\u202F' || c == '\u205F' || c == '\u3000'

/-- Rust str::trim on a character list: drop whitespace from both ends. -/
def trim_chars (cs : List Char) : List Char :=
  ((cs.dropWhile is_rust_whitespace).reverse.dropWhile is_rust_whitespace).reverse

/-- Rust str::trim. -/
def trim (s : String) : String :=
  String.mk (trim_chars s.data)

/-- Rust str::is_empty. -/
def str_is_empty (s : String) : Bool :=
  s.data.isEmpty

/-- Helper for str::starts_with: does the first list start with the second? -/
def chars_start_with : List Char → List Char → Bool
  | _, [] => true
  | [], _ :: _ => false
  | c :: cs, p :: ps => c == p && chars_start_with cs ps

/-- Rust str::starts_with (string pattern). -/
def starts_with (s pat : String) : Bool :=
  chars_start_with s.data pat.data

/-- Split a character list at newline characters ('\n'), keeping empty
segments; the final segment carries no terminator.  Building block of
Rust str::lines (terminator semantics: a trailing newline does not
produce a final empty line). -/
def split_newlines : List Char → List (List Char)
  | [] => []
  | c :: cs =>
    if c = '\n' then [] :: split_newlines cs
    else
      match split_newlines cs with
      | [] => [[c]]
      | l :: ls => (c :: l) :: ls

/-- Rust str::lines strips one carriage return at the end of each line
(to handle \r\n line endings). -/
def strip_cr (cs : List Char) : List Char :=
  match cs.getLast? with
  | some '\r' => cs.dropLast
  | _ => cs

/-- Rust str::lines. -/
def rust_lines (s : String) : List String :=
  (split_newlines s.data).map (fun l => String.mk (strip_cr l))

-- ===========================================================================
-- src/history.rs : parsing of shell history
-- ===========================================================================

/-- The text after the first ';' of a line (Rust &line[idx + 1..] for
idx = line.find(';')). -/
def after_semicolon (line : String) : String :=
  String.mk ((line.data.dropWhile (fun c => c ≠ ';')).drop 1)

/-- Rust line.contains(";"). -/
def contains_semicolon (line : String) : Bool :=
  line.data.contains ';'

/-- src/history.rs parse_zsh_line: parse one line of zsh history.
Extended-format lines are ": timestamp:duration;command"; other
non-empty lines are returned as-is (simple format / continuation). -/
def parse_zsh_line (line : String) : Option String :=
  let line := trim line
  if str_is_empty line then none
  else if starts_with line (": ") then
    if contains_semicolon line then
      let cmd := after_semicolon line
      if !(str_is_empty cmd) then some cmd else none
    else none
  else some line

/-- src/history.rs parse_bash_line: bash history is one command per
line, trimmed; blank lines are dropped. -/
def parse_bash_line (line : String) : Option String :=
  let line := trim line
  if str_is_empty line then none else some line

/-- The zsh branch of get_last_commands: the for-loop over lines with
the accumulator current_command for multi-line commands.  A line
starting with ": " saves the accumulated command (trimmed) and starts a
new one; any other non-blank line is appended to the current command
after a newline; the final command is saved at the end. -/
def parse_zsh_lines : List String → String → List String
  | [], current =>
    if !(str_is_empty current) then [trim current] else []
  | l :: ls, current =>
    let line := trim l
    if str_is_empty line then parse_zsh_lines ls current
    else if starts_with line (": ") then
      (if !(str_is_empty current) then [trim current] else []) ++
        parse_zsh_lines ls
          (match parse_zsh_line line with
           | some cmd => cmd
           | none => (""))
    else
      parse_zsh_lines ls
        (if !(str_is_empty current) then current ++ ("\n") ++ line else current ++ line)

/-- The parsing stage of src/history.rs get_last_commands: the zsh
multi-line parse when the history path contains "zsh", otherwise the
bash per-line parse. -/
def raw_commands (is_zsh : Bool) (content : String) : List String :=
  if is_zsh then parse_zsh_lines (rust_lines content) ("")
  else (rust_lines content).filterMap parse_bash_line

/-- The retain stage of src/history.rs get_last_commands: commands
whose trimmed text begins with the tool's own name are filtered out. -/
def retained_commands (is_zsh : Bool) (content : String) : List String :=
  (raw_commands is_zsh content).filter (fun cmd => !(starts_with (trim cmd) ("sorry")))

/-- src/history.rs get_last_commands.  The file-system part (locating
and reading the history file) is I/O and is factored out: content is
the text of the located history file and is_zsh tells whether its path
contains "zsh".  Returns the last count retained commands. -/
def get_last_commands (is_zsh : Bool) (content : String) (count : Nat) : List String :=
  let commands := retained_commands is_zsh content
  commands.drop (commands.length - count)

/-- src/history.rs parse_commands_from_string: the alternate entry
point over a pre-split newline-separated command string. -/
def parse_commands_from_string (commands_str : String) : List String :=
  (((rust_lines commands_str).map (fun line => trim line)).filter
      (fun line => !(str_is_empty line))).filter
    (fun cmd => !(starts_with (trim cmd) ("sorry")))

/-- src/history.rs format_history_context: number the commands from 1
and frame them in a code block under an explanatory header; the empty
list yields the empty string. -/
def format_history_context (commands : List String) : String :=
  if commands.isEmpty then ("")
  else
    let context := ("Here are my last terminal commands:\n```\n")
    let context := commands.enum.foldl
      (fun acc p => acc ++ toString (p.1 + 1) ++ (". ") ++ p.2 ++ ("\n")) context
    context ++ ("```\n\n")


-- ===========================================================================
-- Lemmas about the string primitives
-- ===========================================================================

theorem dropWhile_idem (p : α → Bool) (l : List α) :
    (l.dropWhile p).dropWhile p = l.dropWhile p := by
  induction l with
  | nil => rfl
  | cons a l ih => by_cases hp : p a <;> simp [List.dropWhile_cons, hp, ih]

theorem head?_dropWhile_false (p : α → Bool) (l : List α) (c : α)
    (h : (l.dropWhile p).head? = some c) : p c = false := by
  induction l with
  | nil => simp [List.dropWhile] at h
  | cons a l ih =>
    by_cases hp : p a
    · rw [List.dropWhile_cons, if_pos hp] at h
      exact ih h
    · rw [List.dropWhile_cons, if_neg hp] at h
      simp at h
      subst h
      simpa using hp

theorem dropWhile_all_iff (p : α → Bool) (l : List α) :
    (∀ x ∈ l.dropWhile p, p x = true) ↔ (∀ x ∈ l, p x = true) := by
  induction l with
  | nil => simp
  | cons a l ih =>
    by_cases hp : p a
    · simp only [List.dropWhile_cons, if_pos hp, ih, List.mem_cons]
      constructor
      · intro h x hx
        rcases hx with rfl | hx
        · exact hp
        · exact h x hx
      · intro h x hx
        exact h x (Or.inr hx)
    · simp [List.dropWhile_cons, hp]

theorem dropWhile_append_of_all (p : α → Bool) (l₁ l₂ : List α)
    (h : ∀ a ∈ l₁, p a = true) :
    (l₁ ++ l₂).dropWhile p = l₂.dropWhile p := by
  induction l₁ with
  | nil => rfl
  | cons a l ih =>
    have ha : p a = true := h a (by simp)
    simp only [List.cons_append, List.dropWhile_cons, ha, if_true]
    exact ih (fun x hx => h x (by simp [hx]))

theorem trim_chars_eq_nil_iff (cs : List Char) :
    trim_chars cs = [] ↔ ∀ c ∈ cs, is_rust_whitespace c = true := by
  unfold trim_chars
  rw [List.reverse_eq_nil_iff, List.dropWhile_eq_nil_iff]
  constructor
  · intro h
    rw [← dropWhile_all_iff is_rust_whitespace cs]
    intro x hx
    exact h x (by simpa using hx)
  · intro h x hx
    rw [List.mem_reverse] at hx
    exact (dropWhile_all_iff is_rust_whitespace cs).mpr h x hx

theorem head?_trim_chars_false (cs : List Char) (c : Char)
    (h : (trim_chars cs).head? = some c) : is_rust_whitespace c = false := by
  unfold trim_chars at h
  rw [List.head?_reverse] at h
  set v := List.dropWhile is_rust_whitespace ((List.dropWhile is_rust_whitespace cs).reverse) with hv
  have hsplit := List.takeWhile_append_dropWhile is_rust_whitespace
    ((List.dropWhile is_rust_whitespace cs).reverse)
  rw [← hv] at hsplit
  have hlast : ((List.dropWhile is_rust_whitespace cs).reverse).getLast? = some c := by
    rw [← hsplit, List.getLast?_append, h]
    rfl
  rw [List.getLast?_reverse] at hlast
  exact head?_dropWhile_false is_rust_whitespace cs c hlast

theorem getLast?_trim_chars_false (cs : List Char) (c : Char)
    (h : (trim_chars cs).getLast? = some c) : is_rust_whitespace c = false := by
  unfold trim_chars at h
  rw [List.getLast?_reverse] at h
  exact head?_dropWhile_false is_rust_whitespace _ c h

theorem trim_chars_idem (cs : List Char) :
    trim_chars (trim_chars cs) = trim_chars cs := by
  have h1 : List.dropWhile is_rust_whitespace (trim_chars cs) = trim_chars cs := by
    cases h : trim_chars cs with
    | nil => rfl
    | cons c t' =>
      have hc : is_rust_whitespace c = false :=
        head?_trim_chars_false cs c (by rw [h]; rfl)
      simp [List.dropWhile_cons, hc]
  show ((List.dropWhile is_rust_whitespace (trim_chars cs)).reverse.dropWhile is_rust_whitespace).reverse
      = trim_chars cs
  rw [h1]
  show ((((((cs.dropWhile is_rust_whitespace).reverse.dropWhile is_rust_whitespace).reverse)).reverse.dropWhile is_rust_whitespace)).reverse = _
  rw [List.reverse_reverse, dropWhile_idem]
  rfl

theorem data_trim (s : String) : (trim s).data = trim_chars s.data := rfl

theorem trim_idem (s : String) : trim (trim s) = trim s := by
  simp [trim, trim_chars_idem]

theorem str_is_empty_iff (s : String) : str_is_empty s = true ↔ s = ("") := by
  constructor
  · intro h
    have hd : s.data = [] := by simpa [str_is_empty, List.isEmpty_iff] using h
    have h2 : String.mk s.data = String.mk [] := by rw [hd]
    exact h2
  · intro h
    rw [h]
    rfl

theorem trim_nonempty_iff (s : String) :
    str_is_empty (trim s) = false ↔ ∃ c ∈ s.data, is_rust_whitespace c = false := by
  have h1 : str_is_empty (trim s) = true ↔ trim_chars s.data = [] := by
    simp [str_is_empty, List.isEmpty_iff, trim]
  constructor
  · intro h
    by_contra hc
    push_neg at hc
    have hall : ∀ c ∈ s.data, is_rust_whitespace c = true := by
      intro c hcm
      simpa using hc c hcm
    have h2 := h1.mpr ((trim_chars_eq_nil_iff s.data).mpr hall)
    rw [h] at h2
    exact absurd h2 (by simp)
  · rintro ⟨c, hc, hcf⟩
    cases hres : str_is_empty (trim s) with
    | false => rfl
    | true =>
      have h3 := (trim_chars_eq_nil_iff s.data).mp (h1.mp hres) c hc
      rw [hcf] at h3
      exact absurd h3 (by simp)

theorem chars_start_with_ne_nil {cs ps : List Char} {p : Char}
    (h : chars_start_with cs (p :: ps) = true) : cs ≠ [] := by
  cases cs
  · simp [chars_start_with] at h
  · simp

/-- A command produced by parse_zsh_line is non-empty, and even its
trimmed text is non-empty (commands recovered from extended-format
lines are suffixes of a trimmed line, so they end in non-whitespace). -/
theorem parse_zsh_line_some (l c : String) (h : parse_zsh_line l = some c) :
    str_is_empty c = false ∧ str_is_empty (trim c) = false := by
  simp only [parse_zsh_line] at h
  split at h
  · exact absurd h (by simp)
  · rename_i h1
    split at h
    · split at h
      · split at h
        · rename_i h4
          have hceq : c = after_semicolon (trim l) := by
            have := h
            simp at this
            exact this.symm
          have hcne : str_is_empty c = false := by
            rw [hceq]
            simpa using h4
          refine ⟨hcne, ?_⟩
          -- the command is a suffix of the trimmed line, so it ends in
          -- a non-whitespace character
          have hdne : c.data ≠ [] := by
            intro hnil
            rw [show str_is_empty c = c.data.isEmpty from rfl, hnil] at hcne
            simp at hcne
          obtain ⟨e, he⟩ : ∃ e, c.data.getLast? = some e := by
            cases hg : c.data.getLast? with
            | none => exact absurd (List.getLast?_eq_none_iff.mp hg) hdne
            | some e => exact ⟨e, rfl⟩
          have hsplit : (trim l).data =
              ((trim l).data.takeWhile (fun ch => ch ≠ ';') ++
                ((trim l).data.dropWhile (fun ch => ch ≠ ';')).take 1) ++ c.data := by
            rw [hceq]
            show _ = _ ++ ((((trim l).data.dropWhile (fun ch => ch ≠ ';'))).drop 1)
            rw [List.append_assoc, List.take_append_drop,
              List.takeWhile_append_dropWhile]
          have hlast : (trim l).data.getLast? = some e := by
            rw [hsplit, List.getLast?_append, he]
            rfl
          have hens : is_rust_whitespace e = false := by
            have : (trim_chars l.data).getLast? = some e := by
              rw [← data_trim]
              exact hlast
            exact getLast?_trim_chars_false l.data e this
          have hmem : e ∈ c.data := List.mem_of_mem_getLast? he
          exact (trim_nonempty_iff c).mpr ⟨e, hmem, hens⟩
        · exact absurd h (by simp)
      · exact absurd h (by simp)
    · have hceq : c = trim l := by
        have := h
        simp at this
        exact this.symm
      have h1f : str_is_empty (trim l) = false := by
        cases hx : str_is_empty (trim l) with
        | false => rfl
        | true => exact absurd hx h1
      constructor
      · rw [hceq]; exact h1f
      · rw [hceq, trim_idem]; exact h1f

/-- Every command emitted by the zsh line loop is non-empty and equal
to its own trim, provided the accumulator is empty or has non-blank
trim (true initially, and preserved by every step). -/
theorem parse_zsh_lines_mem (ls : List String) :
    ∀ (cur : String), (str_is_empty cur = true ∨ str_is_empty (trim cur) = false) →
      ∀ c ∈ parse_zsh_lines ls cur, str_is_empty c = false ∧ trim c = c := by
  induction ls with
  | nil =>
    intro cur hinv c hc
    simp only [parse_zsh_lines] at hc
    split at hc
    · rename_i hne
      simp at hc
      subst hc
      rcases hinv with h | h
      · rw [h] at hne
        simp at hne
      · exact ⟨h, trim_idem cur⟩
    · simp at hc
  | cons l ls ih =>
    intro cur hinv c hc
    simp only [parse_zsh_lines] at hc
    split at hc
    · exact ih cur hinv c hc
    · rename_i hline
      have hlinef : str_is_empty (trim l) = false := by
        cases hx : str_is_empty (trim l) with
        | false => rfl
        | true => exact absurd hx hline
      split at hc
      · rw [List.mem_append] at hc
        rcases hc with hc | hc
        · split at hc
          · rename_i hne
            simp at hc
            subst hc
            rcases hinv with h | h
            · rw [h] at hne
              simp at hne
            · exact ⟨h, trim_idem cur⟩
          · simp at hc
        · cases hp : parse_zsh_line (trim l) with
          | none =>
            rw [hp] at hc
            exact ih ("") (Or.inl (by rfl)) c hc
          | some cmd =>
            rw [hp] at hc
            exact ih _ (Or.inr (parse_zsh_line_some _ _ hp).2) c hc
      · -- continuation line: the new accumulator contains the non-blank
        -- trimmed line, hence has non-blank trim
        have hlinef2 : str_is_empty (trim (trim l)) = false := by
          rw [trim_idem]
          exact hlinef
        obtain ⟨ch, hchtr, hchns⟩ := (trim_nonempty_iff (trim l)).mp hlinef2
        split at hc
        · refine ih _ (Or.inr ?_) c hc
          rw [trim_nonempty_iff]
          refine ⟨ch, ?_, hchns⟩
          rw [String.data_append, String.data_append]
          simp [hchtr]
        · refine ih _ (Or.inr ?_) c hc
          rw [trim_nonempty_iff]
          refine ⟨ch, ?_, hchns⟩
          rw [String.data_append]
          simp [hchtr]

theorem str_is_empty_false_iff (s : String) : str_is_empty s = false ↔ s ≠ ("") := by
  constructor
  · intro h heq
    rw [heq] at h
    simp [str_is_empty] at h
  · intro h
    cases hx : str_is_empty s with
    | false => rfl
    | true => exact absurd ((str_is_empty_iff s).mp hx) h

theorem parse_bash_line_some (l c : String) (h : parse_bash_line l = some c) :
    str_is_empty c = false ∧ trim c = c := by
  simp only [parse_bash_line] at h
  split at h
  · exact absurd h (by simp)
  · rename_i h1
    have hceq : c = trim l := by
      have h2 := h
      simp at h2
      exact h2.symm
    subst hceq
    exact ⟨by cases hx : str_is_empty (trim l) with
            | false => rfl
            | true => exact absurd hx h1,
          trim_idem l⟩

theorem mem_retained_commands (is_zsh : Bool) (content : String) (c : String)
    (hc : c ∈ retained_commands is_zsh content) :
    c ∈ raw_commands is_zsh content ∧ starts_with (trim c) ("sorry") = false := by
  rw [retained_commands, List.mem_filter] at hc
  exact ⟨hc.1, by simpa using hc.2⟩

theorem mem_raw_commands (is_zsh : Bool) (content : String) (c : String)
    (hc : c ∈ raw_commands is_zsh content) :
    str_is_empty c = false ∧ trim c = c := by
  rw [raw_commands] at hc
  split at hc
  · exact parse_zsh_lines_mem (rust_lines content) ("") (Or.inl (by rfl)) c hc
  · rw [List.mem_filterMap] at hc
    obtain ⟨l, _, hl⟩ := hc
    exact parse_bash_line_some l c hl

/-- C10: every command string returned by get_last_commands or by
parse_commands_from_string is non-empty and carries no leading or
trailing whitespace (each returned entry equals its own trim). -/
theorem returned_commands_trimmed_nonempty :
    (∀ (is_zsh : Bool) (content : String) (count : Nat),
      ∀ c ∈ get_last_commands is_zsh content count, c ≠ ("") ∧ trim c = c) ∧
    (∀ (s : String), ∀ c ∈ parse_commands_from_string s, c ≠ ("") ∧ trim c = c) := by
  constructor
  · intro is_zsh content count c hc
    simp only [get_last_commands] at hc
    have h1 := List.mem_of_mem_drop hc
    have h2 := (mem_retained_commands is_zsh content c h1).1
    have h3 := mem_raw_commands is_zsh content c h2
    exact ⟨(str_is_empty_false_iff c).mp h3.1, h3.2⟩
  · intro s c hc
    rw [parse_commands_from_string, List.mem_filter] at hc
    obtain ⟨hc1, _⟩ := hc
    rw [List.mem_filter] at hc1
    obtain ⟨hc2, hne⟩ := hc1
    rw [List.mem_map] at hc2
    obtain ⟨l, _, hl⟩ := hc2
    refine ⟨(str_is_empty_false_iff c).mp (by simpa using hne), ?_⟩
    rw [← hl, trim_idem]

theorem returned_commands_trimmed_nonempty_witness :
    ((("ls") : String) ≠ ("") ∧ trim ("ls") = ("ls")) ∧
      ((("pwd") : String) ≠ ("") ∧ trim ("pwd") = ("pwd")) :=
  ⟨returned_commands_trimmed_nonempty.1 false ("ls\n") 5 ("ls") (by decide),
   returned_commands_trimmed_nonempty.2 ("pwd\n") ("pwd") (by decide)⟩

/-- C4: no command whose trimmed text begins with the tool's own name
appears in the output, for the file-based reader and for the pre-split
entry point alike. -/
theorem no_self_commands_returned :
    (∀ (is_zsh : Bool) (content : String) (count : Nat),
      ∀ c ∈ get_last_commands is_zsh content count,
        starts_with (trim c) ("sorry") = false) ∧
    (∀ (s : String), ∀ c ∈ parse_commands_from_string s,
        starts_with (trim c) ("sorry") = false) := by
  constructor
  · intro is_zsh content count c hc
    simp only [get_last_commands] at hc
    exact (mem_retained_commands is_zsh content c (List.mem_of_mem_drop hc)).2
  · intro s c hc
    rw [parse_commands_from_string, List.mem_filter] at hc
    simpa using hc.2

theorem no_self_commands_returned_witness :
    starts_with (trim ("ls")) ("sorry") = false ∧
      starts_with (trim ("git st")) ("sorry") = false :=
  ⟨no_self_commands_returned.1 false ("ls") 3 ("ls") (by decide),
   no_self_commands_returned.2 ("git st") ("git st") (by decide)⟩

/-- C3: get_last_commands returns exactly the last count retained
commands, in their original (chronological) order, and its length is
min count (number of retained commands). -/
theorem get_last_commands_window (is_zsh : Bool) (content : String) (count : Nat) :
    get_last_commands is_zsh content count =
      ((retained_commands is_zsh content).reverse.take count).reverse ∧
    (get_last_commands is_zsh content count).length =
      min count (retained_commands is_zsh content).length := by
  have h1 : get_last_commands is_zsh content count =
      (retained_commands is_zsh content).drop
        ((retained_commands is_zsh content).length - count) := rfl
  constructor
  · rw [h1, ← List.rtake, List.rtake_eq_reverse_take_reverse]
  · rw [h1, List.length_drop]
    omega

-- ===========================================================================
-- C1: extended-format line parsing
-- ===========================================================================

/-- C1 counterexample: the line ": 1690000000:0;" starts with ": " and
contains a semicolon, but parsing discards it (the text after the
first semicolon is empty), instead of yielding that text as the
command. -/
theorem parse_zsh_line_empty_command_counterexample :
    starts_with ((": 1690000000:0;")) (": ") = true ∧
    contains_semicolon ((": 1690000000:0;")) = true ∧
    parse_zsh_line (": 1690000000:0;") = none ∧
    parse_zsh_line (": 1690000000:0;") ≠ some (after_semicolon (": 1690000000:0;")) :=
  ⟨by decide, by decide, by decide, by decide⟩

/-- C1 (amended): for every line whose trimmed text starts with ": "
and contains a semicolon, parsing yields the text after the first
semicolon of the trimmed line when that text is non-empty, and no
entry when it is empty; a line whose trimmed text starts with ": " but
has no semicolon yields no entry. -/
theorem parse_zsh_line_marker (l : String)
    (hm : starts_with (trim l) (": ") = true) :
    (contains_semicolon (trim l) = true →
      parse_zsh_line l =
        (if str_is_empty (after_semicolon (trim l)) = true then none
         else some (after_semicolon (trim l)))) ∧
    (contains_semicolon (trim l) = false → parse_zsh_line l = none) := by
  have hd : (trim l).data ≠ [] := by
    intro h0
    have hm2 : chars_start_with (trim l).data ((": ").data) = true := hm
    rw [h0] at hm2
    exact absurd hm2 (by decide)
  have hne : str_is_empty (trim l) = false := by
    cases hdata : (trim l).data with
    | nil => exact absurd hdata hd
    | cons a as =>
      show ((trim l).data).isEmpty = false
      rw [hdata]
      rfl
  constructor
  · intro hcs
    simp only [parse_zsh_line, hne, hm, hcs]
    cases hce : str_is_empty (after_semicolon (trim l)) <;> simp [hce]
  · intro hcs
    simp only [parse_zsh_line, hne, hm, hcs]
    simp

theorem parse_zsh_line_marker_witness :
    parse_zsh_line (": 1690000000:0;git status") = some ("git status") := by
  have h := (parse_zsh_line_marker (": 1690000000:0;git status") (by decide)).1 (by decide)
  rw [h]
  decide

-- ===========================================================================
-- C2: continuation lines in the zsh format
-- ===========================================================================

theorem split_newlines_append (a b : List Char) (ha : '\n' ∉ a) :
    split_newlines (a ++ '\n' :: b) = a :: split_newlines b := by
  induction a with
  | nil => simp [split_newlines]
  | cons c a ih =>
    have hc : c ≠ '\n' := by
      intro h
      exact ha (by simp [h])
    have ha' : '\n' ∉ a := fun h => ha (by simp [h])
    rw [List.cons_append]
    simp only [split_newlines, if_neg hc, ih ha']

theorem split_newlines_no_newline (b : List Char) (hb : '\n' ∉ b) (hne : b ≠ []) :
    split_newlines b = [b] := by
  induction b with
  | nil => exact absurd rfl hne
  | cons c b ih =>
    have hc : c ≠ '\n' := fun h => hb (by simp [h])
    have hb' : '\n' ∉ b := fun h => hb (by simp [h])
    simp only [split_newlines, if_neg hc]
    by_cases hbnil : b = []
    · subst hbnil
      simp [split_newlines]
    · rw [ih hb' hbnil]

theorem strip_cr_eq_self (cs : List Char) (h : cs.getLast? ≠ some '\r') :
    strip_cr cs = cs := by
  unfold strip_cr
  split
  · rename_i heq
    exact absurd heq h
  · rfl

theorem getLast?_not_ws_of_trim_eq_self (s : String) (h : trim s = s) (c : Char)
    (hc : s.data.getLast? = some c) : is_rust_whitespace c = false := by
  apply getLast?_trim_chars_false s.data
  rw [← data_trim, h]
  exact hc

theorem getLast?_ne_cr_of_trim_eq_self (s : String) (h : trim s = s) :
    s.data.getLast? ≠ some '\r' := by
  intro heq
  have h2 := getLast?_not_ws_of_trim_eq_self s h '\r' heq
  rw [show is_rust_whitespace '\r' = true from by decide] at h2
  exact absurd h2 (by simp)

/-- Rust str::lines on a two-line text built from two newline-free,
already-trimmed lines, the second non-empty. -/
theorem rust_lines_two (l1 l2 : String)
    (h1 : '\n' ∉ l1.data) (h2 : '\n' ∉ l2.data)
    (ht1 : trim l1 = l1) (ht2 : trim l2 = l2)
    (hne2 : l2 ≠ ("")) :
    rust_lines (l1 ++ ("\n") ++ l2) = [l1, l2] := by
  have hdata : (l1 ++ ("\n") ++ l2).data = l1.data ++ '\n' :: l2.data := by
    rw [String.data_append, String.data_append]
    show l1.data ++ ['\n'] ++ l2.data = _
    simp
  have hd2 : l2.data ≠ [] := by
    intro h0
    apply hne2
    have : String.mk l2.data = String.mk [] := by rw [h0]
    exact this
  rw [rust_lines, hdata, split_newlines_append _ _ h1,
    split_newlines_no_newline _ h2 hd2]
  rw [List.map_cons, List.map_cons, List.map_nil,
    strip_cr_eq_self _ (getLast?_ne_cr_of_trim_eq_self l1 ht1),
    strip_cr_eq_self _ (getLast?_ne_cr_of_trim_eq_self l2 ht2)]

theorem str_is_empty_append_left (s t : String) (h : str_is_empty s = false) :
    str_is_empty (s ++ t) = false := by
  show ((s ++ t).data).isEmpty = false
  rw [String.data_append]
  cases hd : s.data with
  | nil =>
    rw [show str_is_empty s = s.data.isEmpty from rfl, hd] at h
    simp at h
  | cons a as => rfl

/-- C2 counterexample: in a two-line zsh input whose second line has
surrounding whitespace, the parser trims the continuation line (and
the assembled command), so the result is not the first command plus a
newline plus the second line's literal text. -/
theorem zsh_continuation_trim_counterexample :
    get_last_commands true ((": 1690000000:0;git status\n  echo done  ")) 10 =
      [("git status\necho done")] ∧
    get_last_commands true ((": 1690000000:0;git status\n  echo done  ")) 10 ≠
      [("git status") ++ ("\n") ++ ("  echo done  ")] :=
  ⟨by decide, by decide⟩

/-- C2 (amended): in zsh parsing, a non-blank line that does not begin
with ": " is appended to the previous entry's command after trimming,
separated by a newline, and the assembled command is trimmed when
stored (blank lines are skipped).  For a two-line zsh input whose
first line is a valid marker entry with command cmd and whose second
line is non-blank, newline-free and does not start with ": ", the
parser produces the single command trim (cmd ++ "\n" ++ l2), provided
that command does not begin with the tool's own name and count ≥ 1. -/
theorem zsh_two_line_continuation (l1 l2 cmd : String) (count : Nat)
    (hcount : 1 ≤ count)
    (hn1 : '\n' ∉ l1.data) (hn2 : '\n' ∉ l2.data)
    (ht1 : trim l1 = l1) (ht2 : trim l2 = l2)
    (hne2 : l2 ≠ (""))
    (hm1 : starts_with l1 (": ") = true)
    (hp1 : parse_zsh_line l1 = some cmd)
    (hm2 : starts_with l2 (": ") = false)
    (hkeep : starts_with (trim (cmd ++ ("\n") ++ l2)) ("sorry") = false) :
    get_last_commands true (l1 ++ ("\n") ++ l2) count = [trim (cmd ++ ("\n") ++ l2)] := by
  have hd1 : l1 ≠ ("") := by
    intro h0
    rw [h0] at hm1
    exact absurd hm1 (by decide)
  have he1 : str_is_empty l1 = false := (str_is_empty_false_iff l1).mpr hd1
  have he2 : str_is_empty l2 = false := (str_is_empty_false_iff l2).mpr hne2
  have hcmdne : str_is_empty cmd = false := (parse_zsh_line_some l1 cmd hp1).1
  have hE : str_is_empty ("") = true := rfl
  have h5 : str_is_empty (cmd ++ ("\n") ++ l2) = false :=
    str_is_empty_append_left _ _ (str_is_empty_append_left _ _ hcmdne)
  have hlines := rust_lines_two l1 l2 hn1 hn2 ht1 ht2 hne2
  have heval : parse_zsh_lines [l1, l2] ("") = [trim (cmd ++ ("\n") ++ l2)] := by
    simp [parse_zsh_lines, ht1, ht2, he1, he2, hm1, hm2, hp1, hcmdne, h5, hE]
  have hret : retained_commands true (l1 ++ ("\n") ++ l2) =
      [trim (cmd ++ ("\n") ++ l2)] := by
    rw [retained_commands, raw_commands, if_pos rfl, hlines, heval]
    simp [List.filter, trim_idem, hkeep]
  show ((retained_commands true (l1 ++ ("\n") ++ l2)).drop
    ((retained_commands true (l1 ++ ("\n") ++ l2)).length - count)) = _
  rw [hret]
  simp [Nat.sub_eq_zero_of_le hcount]

theorem zsh_two_line_continuation_witness :
    get_last_commands true ((": 1690000000:0;git status") ++ ("\n") ++ ("echo done")) 10 =
      [trim (("git status") ++ ("\n") ++ ("echo done"))] := by
  exact zsh_two_line_continuation (": 1690000000:0;git status") ("echo done")
    ("git status") 10 (by decide) (by decide) (by decide) (by decide) (by decide)
    (by decide) (by decide) (by decide) (by decide) (by decide)

-- ===========================================================================
-- C5: history formatting
-- ===========================================================================

theorem string_join_cons (a : String) (l : List String) :
    String.join (a :: l) = a ++ String.join l := by
  show List.foldl (fun r s => r ++ s) (("") ++ a) l = a ++ List.foldl (fun r s => r ++ s) ("") l
  have hgen : ∀ (l : List String) (s t : String),
      List.foldl (fun r x => r ++ x) (s ++ t) l = s ++ List.foldl (fun r x => r ++ x) t l := by
    intro l
    induction l with
    | nil => intro s t; rfl
    | cons x l ih =>
      intro s t
      simp only [List.foldl_cons, String.append_assoc, ih]
  have h0 : ("") ++ a = a := by
    have : (("") ++ a).data = a.data := by simp [String.data_append]
    exact congrArg String.mk this
  rw [h0]
  calc List.foldl (fun r s => r ++ s) a l
      = List.foldl (fun r s => r ++ s) (a ++ ("")) l := by
        congr 1
        have : (a ++ ("")).data = a.data := by simp [String.data_append]
        exact (congrArg String.mk this).symm
    _ = a ++ List.foldl (fun r s => r ++ s) ("") l := hgen l a ("")

theorem foldl_numbered_lines (l : List (Nat × String)) :
    ∀ (init : String),
      l.foldl (fun acc p => acc ++ toString (p.1 + 1) ++ (". ") ++ p.2 ++ ("\n")) init =
        init ++ String.join (l.map (fun p => toString (p.1 + 1) ++ (". ") ++ p.2 ++ ("\n"))) := by
  induction l with
  | nil =>
    intro init
    show init = init ++ String.join []
    have : (init ++ String.join []).data = init.data := by
      simp [String.data_append, String.join]
    exact (congrArg String.mk this).symm
  | cons x l ih =>
    intro init
    rw [List.foldl_cons, ih, List.map_cons, string_join_cons]
    simp [String.append_assoc]

/-- C5: format_history_context of the empty list is the empty string;
for a non-empty list it is the explanatory header, the numbered lines
"i. cmd" (i counting from 1, commands in original order), and the
closing fence; there are exactly as many numbered lines as commands. -/
theorem format_history_context_spec :
    format_history_context [] = ("") ∧
    (∀ commands : List String, commands ≠ [] →
      format_history_context commands =
        ("Here are my last terminal commands:\n```\n") ++
          String.join (commands.enum.map
            (fun p => toString (p.1 + 1) ++ (". ") ++ p.2 ++ ("\n"))) ++
          ("```\n\n")) ∧
    (∀ commands : List String,
      (commands.enum.map
        (fun p => toString (p.1 + 1) ++ (". ") ++ p.2 ++ ("\n"))).length =
        commands.length) := by
  refine ⟨rfl, ?_, ?_⟩
  · intro commands hne
    rw [format_history_context]
    rw [if_neg (by simpa using hne)]
    dsimp only
    rw [foldl_numbered_lines]
  · intro commands
    simp

theorem format_history_context_spec_witness :
    format_history_context [("git status"), ("ls")] =
      ("Here are my last terminal commands:\n```\n1. git status\n2. ls\n```\n\n") := by
  have h := format_history_context_spec.2.1 [("git status"), ("ls")] (by decide)
  rw [h]
  decide

-- ===========================================================================
-- JSON documents (model of serde_json): document type, text parser,
-- pretty printer.  Numbers are kept as uninterpreted lexemes (none of
-- the decoded structures in this program has numeric fields).
-- ===========================================================================

inductive Json where
  | null : Json
  | bool : Bool → Json
  | num : String → Json
  | str : String → Json
  | arr : List Json → Json
  | obj : List (String × Json) → Json
deriving Inhabited

/-- JSON insignificant whitespace (as accepted by serde_json). -/
def is_json_ws (c : Char) : Bool :=
  c == ' ' || c == '\t' || c == '\n' || c == '\r'

def skip_ws (cs : List Char) : List Char :=
  cs.dropWhile is_json_ws

def hex_digit_value (c : Char) : Option Nat :=
  if ('0' ≤ c && c ≤ '9') then some (c.toNat - 48)
  else if ('a' ≤ c && c ≤ 'f') then some (c.toNat - 97 + 10)
  else if ('A' ≤ c && c ≤ 'F') then some (c.toNat - 65 + 10)
  else none

def parse_hex4 : List Char → Option (Nat × List Char)
  | a :: b :: c :: d :: rest =>
    match hex_digit_value a, hex_digit_value b, hex_digit_value c, hex_digit_value d with
    | some ha, some hb, some hc, some hd =>
      some (4096 * ha + 256 * hb + 16 * hc + hd, rest)
    | _, _, _, _ => none
  | _ => none

/-- Decode one escape sequence after a backslash (JSON string grammar,
including surrogate pairs for \u escapes). -/
def parse_escape : List Char → Option (Char × List Char)
  | [] => none
  | e :: rest =>
    if e == '"' then some ('"', rest)
    else if e == '\\' then some ('\\', rest)
    else if e == '/' then some ('/', rest)
    else if e == 'b' then some ('\x08', rest)
    else if e == 'f' then some ('\x0C', rest)
    else if e == 'n' then some ('\n', rest)
    else if e == 'r' then some ('\r', rest)
    else if e == 't' then some ('\t', rest)
    else if e == 'u' then
      match parse_hex4 rest with
      | none => none
      | some (n, rest2) =>
        if 0xD800 ≤ n ∧ n ≤ 0xDBFF then
          match rest2 with
          | '\\' :: 'u' :: rest3 =>
            match parse_hex4 rest3 with
            | some (n2, rest4) =>
              if 0xDC00 ≤ n2 ∧ n2 ≤ 0xDFFF then
                some (Char.ofNat (0x10000 + (n - 0xD800) * 0x400 + (n2 - 0xDC00)), rest4)
              else none
            | none => none
          | _ => none
        else if 0xDC00 ≤ n ∧ n ≤ 0xDFFF then none
        else some (Char.ofNat n, rest2)
    else none

/-- Parse the body of a JSON string (after the opening quote) up to and
including the closing quote; unescaped control characters are
rejected. -/
def parse_string_body : Nat → List Char → Option (List Char × List Char)
  | 0, _ => none
  | _ + 1, [] => none
  | fuel + 1, c :: rest =>
    if c == '"' then some ([], rest)
    else if c == '\\' then
      match parse_escape rest with
      | none => none
      | some (ch, rest2) =>
        match parse_string_body fuel rest2 with
        | some (s, r) => some (ch :: s, r)
        | none => none
    else if c.toNat < 32 then none
    else
      match parse_string_body fuel rest with
      | some (s, r) => some (c :: s, r)
      | none => none

def is_digit_char (c : Char) : Bool :=
  '0' ≤ c && c ≤ '9'

/-- Parse a JSON number (serde grammar: -?int frac? exp?), returning
its lexeme. -/
def parse_number (cs : List Char) : Option (String × List Char) :=
  let (sign, cs1) : List Char × List Char :=
    match cs with
    | '-' :: rest => (['-'], rest)
    | _ => ([], cs)
  match cs1 with
  | [] => none
  | c :: rest =>
    if !(is_digit_char c) then none
    else
      let (intPart, rest1) : List Char × List Char :=
        if c == '0' then ([c], rest)
        else (c :: rest.takeWhile is_digit_char, rest.dropWhile is_digit_char)
      let (fracPart, rest2) : Option (List Char) × List Char :=
        match rest1 with
        | '.' :: r =>
          let ds := r.takeWhile is_digit_char
          if ds.isEmpty then (none, rest1)
          else (some ('.' :: ds), r.dropWhile is_digit_char)
        | _ => (some [], rest1)
      match fracPart with
      | none => none
      | some fp =>
        let (expPart, rest3) : Option (List Char) × List Char :=
          match rest2 with
          | e :: r =>
            if e == 'e' || e == 'E' then
              let (sg, r2) : List Char × List Char :=
                match r with
                | '+' :: rr => (['+'], rr)
                | '-' :: rr => (['-'], rr)
                | _ => ([], r)
              let ds := r2.takeWhile is_digit_char
              if ds.isEmpty then (none, rest2)
              else (some (e :: (sg ++ ds)), r2.dropWhile is_digit_char)
            else (some [], rest2)
          | _ => (some [], rest2)
        match expPart with
        | none => none
        | some ep => some (String.mk (sign ++ intPart ++ fp ++ ep), rest3)

mutual

/-- Parse one JSON value (serde_json text grammar), with fuel. -/
def parse_value : Nat → List Char → Option (Json × List Char)
  | 0, _ => none
  | fuel + 1, cs =>
    match skip_ws cs with
    | [] => none
    | c :: rest =>
      if c == '"' then
        match parse_string_body (rest.length + 1) rest with
        | some (s, r) => some (Json.str (String.mk s), r)
        | none => none
      else if c == '\x7b' then
        parse_object_after_brace fuel rest
      else if c == '[' then
        parse_array_after_bracket fuel rest
      else if c == 't' then
        match rest with
        | 'r' :: 'u' :: 'e' :: r => some (Json.bool true, r)
        | _ => none
      else if c == 'f' then
        match rest with
        | 'a' :: 'l' :: 's' :: 'e' :: r => some (Json.bool false, r)
        | _ => none
      else if c == 'n' then
        match rest with
        | 'u' :: 'l' :: 'l' :: r => some (Json.null, r)
        | _ => none
      else if c == '-' || is_digit_char c then
        match parse_number (c :: rest) with
        | some (lex, r) => some (Json.num lex, r)
        | none => none
      else none

def parse_array_after_bracket : Nat → List Char → Option (Json × List Char)
  | 0, _ => none
  | fuel + 1, cs =>
    match skip_ws cs with
    | ']' :: rest => some (Json.arr [], rest)
    | _ =>
      match parse_array_items fuel cs with
      | some (items, r) => some (Json.arr items, r)
      | none => none

def parse_array_items : Nat → List Char → Option (List Json × List Char)
  | 0, _ => none
  | fuel + 1, cs =>
    match parse_value fuel cs with
    | none => none
    | some (v, r) =>
      match skip_ws r with
      | ',' :: r2 =>
        match parse_array_items fuel r2 with
        | some (items, r3) => some (v :: items, r3)
        | none => none
      | ']' :: r2 => some ([v], r2)
      | _ => none

def parse_object_after_brace : Nat → List Char → Option (Json × List Char)
  | 0, _ => none
  | fuel + 1, cs =>
    match skip_ws cs with
    | '\x7d' :: rest => some (Json.obj [], rest)
    | _ =>
      match parse_object_items fuel cs with
      | some (entries, r) => some (Json.obj entries, r)
      | none => none

def parse_object_items : Nat → List Char → Option (List (String × Json) × List Char)
  | 0, _ => none
  | fuel + 1, cs =>
    match skip_ws cs with
    | '"' :: rest =>
      match parse_string_body (rest.length + 1) rest with
      | none => none
      | some (k, r) =>
        match skip_ws r with
        | ':' :: r2 =>
          match parse_value fuel r2 with
          | none => none
          | some (v, r3) =>
            match skip_ws r3 with
            | ',' :: r4 =>
              match parse_object_items fuel r4 with
              | some (entries, r5) => some ((String.mk k, v) :: entries, r5)
              | none => none
            | '\x7d' :: r4 => some ([(String.mk k, v)], r4)
            | _ => none
        | _ => none
    | _ => none

end

/-- serde_json::from_str at the document level: parse one value and
require only whitespace after it. -/
def parse_json (s : String) : Option Json :=
  match parse_value (2 * s.data.length + 2) s.data with
  | some (v, rest) => if (skip_ws rest).isEmpty then some v else none
  | none => none

-- ===========================================================================
-- src/api.rs : wire structures and response handling of call_llm
-- ===========================================================================

structure ChatResponseMessage where
  content : String
deriving DecidableEq

structure ChatChoice where
  message : ChatResponseMessage
deriving DecidableEq

structure ChatResponse where
  choices : List ChatChoice
deriving DecidableEq

structure ApiErrorDetail where
  message : String
deriving DecidableEq

structure ApiError where
  error : ApiErrorDetail
deriving DecidableEq

/-- Look up a struct field in a JSON object (serde derive semantics:
the field must occur exactly once among the entries; unknown fields
are ignored; a duplicate occurrence is an error). -/
def field1 (entries : List (String × Json)) (key : String) : Option Json :=
  match entries.filter (fun e => e.1 == key) with
  | [e] => some e.2
  | _ => none

def ChatResponseMessage.fromJson : Json → Option ChatResponseMessage
  | Json.obj entries =>
    match field1 entries ("content") with
    | some (Json.str s) => some ⟨s⟩
    | _ => none
  | _ => none

def ChatChoice.fromJson : Json → Option ChatChoice
  | Json.obj entries =>
    match field1 entries ("message") with
    | some j =>
      match ChatResponseMessage.fromJson j with
      | some m => some ⟨m⟩
      | none => none
    | none => none
  | _ => none

def decode_choices : List Json → Option (List ChatChoice)
  | [] => some []
  | j :: js =>
    match ChatChoice.fromJson j, decode_choices js with
    | some c, some cs => some (c :: cs)
    | _, _ => none

def ChatResponse.fromJson : Json → Option ChatResponse
  | Json.obj entries =>
    match field1 entries ("choices") with
    | some (Json.arr items) =>
      match decode_choices items with
      | some cs => some ⟨cs⟩
      | none => none
    | _ => none
  | _ => none

def ApiErrorDetail.fromJson : Json → Option ApiErrorDetail
  | Json.obj entries =>
    match field1 entries ("message") with
    | some (Json.str s) => some ⟨s⟩
    | _ => none
  | _ => none

def ApiError.fromJson : Json → Option ApiError
  | Json.obj entries =>
    match field1 entries ("error") with
    | some j =>
      match ApiErrorDetail.fromJson j with
      | some d => some ⟨d⟩
      | none => none
    | none => none
  | _ => none

/-- serde_json::from_str::<ChatResponse>. -/
def from_str_chat_response (s : String) : Option ChatResponse :=
  (parse_json s).bind ChatResponse.fromJson

/-- serde_json::from_str::<ApiError>. -/
def from_str_api_error (s : String) : Option ApiError :=
  (parse_json s).bind ApiError.fromJson

/-- reqwest StatusCode::is_success: 2xx statuses. -/
def status_is_success (status : Nat) : Bool :=
  200 ≤ status && status ≤ 299

/-- The error outcomes of call_llm's response handling (the Rust code
returns boxed string errors; the serde error fragment interpolated
into the parse-failure message is abstracted away). -/
inductive LlmError where
  | apiError (message : String)
  | httpFailure (status : Nat) (body : String)
  | parseFailure (body : String)
  | emptyResponse
deriving DecidableEq

/-- The error text produced by call_llm for each error outcome.  For
httpFailure the Rust code displays the reqwest status (code and
canonical reason phrase); the code is modelled here.  For parseFailure
the interpolated serde error text is omitted. -/
def LlmError.text : LlmError → String
  | .apiError m => ("API error: ") ++ m
  | .httpFailure status body =>
    ("API request failed with status ") ++ toString status ++ (": ") ++ body
  | .parseFailure body => ("Failed to parse API response. Body: ") ++ body
  | .emptyResponse => ("No response from API")

/-- src/api.rs call_llm, response-handling portion (lines 109-129):
the request itself is network I/O, so the HTTP status and body text
are taken as inputs.  On non-success status, a parseable structured
error body is surfaced as "API error: ..."; otherwise the raw status
and body.  On success, the body is decoded as a chat response; a
missing first choice is the "No response from API" condition. -/
def handle_api_response (status : Nat) (body : String) : Except LlmError String :=
  if !(status_is_success status) then
    match from_str_api_error body with
    | some apiErr => Except.error (LlmError.apiError apiErr.error.message)
    | none => Except.error (LlmError.httpFailure status body)
  else
    match from_str_chat_response body with
    | none => Except.error (LlmError.parseFailure body)
    | some chatResponse =>
      match chatResponse.choices with
      | [] => Except.error LlmError.emptyResponse
      | c :: _ => Except.ok c.message.content

/-- C6: on a successful (2xx) status, a body that decodes to the chat
response structure with an empty choices list fails with the
"no response" condition, not a response-parse failure; with a
non-empty choices list, the first choice's message content is
returned. -/
theorem empty_choices_no_response (status : Nat) (body : String) (resp : ChatResponse)
    (hs : status_is_success status = true)
    (hp : from_str_chat_response body = some resp) :
    (resp.choices = [] →
      handle_api_response status body = Except.error LlmError.emptyResponse ∧
      ∀ b, handle_api_response status body ≠ Except.error (LlmError.parseFailure b)) ∧
    (∀ c rest, resp.choices = c :: rest →
      handle_api_response status body = Except.ok c.message.content) := by
  constructor
  · intro hempty
    have h : handle_api_response status body = Except.error LlmError.emptyResponse := by
      simp [handle_api_response, hs, hp, hempty]
    refine ⟨h, ?_⟩
    intro b heq
    rw [h] at heq
    simp at heq
  · intro c rest hcons
    simp [handle_api_response, hs, hp, hcons]

theorem empty_choices_no_response_witness :
    handle_api_response 200 ("\x7b\"choices\":[]\x7d") =
      Except.error LlmError.emptyResponse :=
  ((empty_choices_no_response 200 ("\x7b\"choices\":[]\x7d") ⟨[]⟩
    (by decide) (by decide)).1 rfl).1

/-- C7: on a non-success status, a body parseable as the structured
error object is surfaced as the error "API error: <message>";
otherwise the error carries the raw status code and body text, and its
text interpolates both. -/
theorem api_error_surfacing (status : Nat) (body : String)
    (hs : status_is_success status = false) :
    (∀ err, from_str_api_error body = some err →
      handle_api_response status body = Except.error (LlmError.apiError err.error.message) ∧
      (LlmError.apiError err.error.message).text = ("API error: ") ++ err.error.message) ∧
    (from_str_api_error body = none →
      handle_api_response status body = Except.error (LlmError.httpFailure status body) ∧
      (LlmError.httpFailure status body).text =
        ("API request failed with status ") ++ toString status ++ (": ") ++ body) := by
  constructor
  · intro err hp
    exact ⟨by simp [handle_api_response, hs, hp], rfl⟩
  · intro hp
    exact ⟨by simp [handle_api_response, hs, hp], rfl⟩

theorem api_error_surfacing_witness :
    handle_api_response 401 ("\x7b\"error\":\x7b\"message\":\"invalid key\"\x7d\x7d") =
      Except.error (LlmError.apiError ("invalid key")) ∧
    LlmError.text (LlmError.apiError ("invalid key")) = ("API error: invalid key") := by
  have h := (api_error_surfacing 401
    ("\x7b\"error\":\x7b\"message\":\"invalid key\"\x7d\x7d") (by decide)).1
    ⟨⟨("invalid key")⟩⟩ (by decide)
  exact ⟨h.1, h.2.trans (by decide)⟩

-- ===========================================================================
-- src/config.rs : data model and persistence
-- ===========================================================================

structure ProviderConfig where
  api_key : String
  base_url : String
  model : String
deriving DecidableEq

inductive Mood where
  | Princess : Mood
  | Bro : Mood
  | Bitch : Mood
deriving DecidableEq

/-- src/config.rs Config.  The HashMap of providers is modelled as an
association list of entries (the map's iteration order is abstracted
by the list order). -/
structure Config where
  provider : Option String
  mood : Option Mood
  providers : List (String × ProviderConfig)
deriving DecidableEq

/-- Rust derive(Default) on Config: no provider, no mood, no
providers. -/
def Config.default : Config := ⟨none, none, []⟩

/-- serde Serialize of Mood with rename_all = "lowercase". -/
def Mood.toJson : Mood → Json
  | Mood.Princess => Json.str ("princess")
  | Mood.Bro => Json.str ("bro")
  | Mood.Bitch => Json.str ("bitch")

/-- serde Deserialize of Mood with rename_all = "lowercase". -/
def Mood.fromJson : Json → Option Mood
  | Json.str s =>
    if s = ("princess") then some Mood.Princess
    else if s = ("bro") then some Mood.Bro
    else if s = ("bitch") then some Mood.Bitch
    else none
  | _ => none

/-- serde Serialize of ProviderConfig (fields in declaration order). -/
def ProviderConfig.toJson (p : ProviderConfig) : Json :=
  Json.obj [(("api_key"), Json.str p.api_key),
            (("base_url"), Json.str p.base_url),
            (("model"), Json.str p.model)]

def ProviderConfig.fromJson : Json → Option ProviderConfig
  | Json.obj entries =>
    match field1 entries ("api_key"), field1 entries ("base_url"),
        field1 entries ("model") with
    | some (Json.str a), some (Json.str b), some (Json.str m) => some ⟨a, b, m⟩
    | _, _, _ => none
  | _ => none

/-- serde Deserialize of the providers map, entry by entry. -/
def decode_provider_entries : List (String × Json) → Option (List (String × ProviderConfig))
  | [] => some []
  | (k, v) :: rest =>
    match ProviderConfig.fromJson v, decode_provider_entries rest with
    | some pc, some ps => some ((k, pc) :: ps)
    | _, _ => none

/-- An Option-typed struct field (serde derive semantics: a missing
field is None; duplicates are an error).  The outer none is the error
case. -/
def field_opt (entries : List (String × Json)) (key : String) : Option (Option Json) :=
  match entries.filter (fun e => e.1 == key) with
  | [] => some none
  | [e] => some (some e.2)
  | _ => none

/-- serde Serialize of Config: fields in declaration order, None as
null. -/
def Config.toJson (c : Config) : Json :=
  Json.obj
    [(("provider"), match c.provider with | none => Json.null | some s => Json.str s),
     (("mood"), match c.mood with | none => Json.null | some m => m.toJson),
     (("providers"), Json.obj (c.providers.map (fun e => (e.1, e.2.toJson))))]

/-- serde Deserialize of Config: Option fields accept null or a value
(or may be missing); the providers map is required. -/
def Config.fromJson : Json → Option Config
  | Json.obj entries =>
    let provOpt : Option (Option String) :=
      match field_opt entries ("provider") with
      | some none => some none
      | some (some Json.null) => some none
      | some (some (Json.str s)) => some (some s)
      | _ => none
    let moodOpt : Option (Option Mood) :=
      match field_opt entries ("mood") with
      | some none => some none
      | some (some Json.null) => some none
      | some (some j) =>
        match Mood.fromJson j with
        | some m => some (some m)
        | none => none
      | none => none
    let providersOpt : Option (List (String × ProviderConfig)) :=
      match field1 entries ("providers") with
      | some (Json.obj pes) => decode_provider_entries pes
      | _ => none
    match provOpt, moodOpt, providersOpt with
    | some p, some m, some ps => some ⟨p, m, ps⟩
    | _, _, _ => none
  | _ => none

-- ===========================================================================
-- JSON pretty printer (serde_json::to_string_pretty, 2-space indent)
-- ===========================================================================

def indent_chars (n : Nat) : List Char :=
  List.replicate (2 * n) ' '

def hex_lower (n : Nat) : Char :=
  if n < 10 then Char.ofNat (48 + n) else Char.ofNat (87 + n)

/-- serde_json string escaping: quote, backslash, the short control
escapes, \u00xx for the other control characters, everything else
verbatim. -/
def escape_char (c : Char) : List Char :=
  if c == '"' then ['\\', '"']
  else if c == '\\' then ['\\', '\\']
  else if c == '\x08' then ['\\', 'b']
  else if c == '\t' then ['\\', 't']
  else if c == '\n' then ['\\', 'n']
  else if c == '\x0C' then ['\\', 'f']
  else if c == '\r' then ['\\', 'r']
  else if c.toNat < 32 then
    ['\\', 'u', '0', '0', hex_lower (c.toNat / 16), hex_lower (c.toNat % 16)]
  else [c]

def escape_string (s : String) : List Char :=
  (s.data.map escape_char).flatten

def render_string (s : String) : String :=
  String.mk ('"' :: (escape_string s ++ ['"']))

mutual

def render_pretty : Nat → Json → String
  | _, Json.null => ("null")
  | _, Json.bool b => if b then ("true") else ("false")
  | _, Json.num lex => lex
  | _, Json.str s => render_string s
  | _, Json.arr [] => ("[]")
  | ind, Json.arr (v :: vs) =>
    ("[\n") ++ render_arr_items (ind + 1) v vs ++ ("\n") ++
      String.mk (indent_chars ind) ++ ("]")
  | _, Json.obj [] => ("\x7b\x7d")
  | ind, Json.obj (e :: es) =>
    ("\x7b\n") ++ render_obj_items (ind + 1) e es ++ ("\n") ++
      String.mk (indent_chars ind) ++ ("\x7d")
termination_by ind j => sizeOf j
decreasing_by all_goals (simp_wf <;> omega)

def render_arr_items : Nat → Json → List Json → String
  | ind, v, [] => String.mk (indent_chars ind) ++ render_pretty ind v
  | ind, v, w :: ws =>
    String.mk (indent_chars ind) ++ render_pretty ind v ++ (",\n") ++
      render_arr_items ind w ws
termination_by ind v vs => 1 + sizeOf v + sizeOf vs
decreasing_by all_goals (simp_wf <;> omega)

def render_obj_items : Nat → (String × Json) → List (String × Json) → String
  | ind, (k, v), [] =>
    String.mk (indent_chars ind) ++ render_string k ++ (": ") ++ render_pretty ind v
  | ind, (k, v), f :: fs =>
    String.mk (indent_chars ind) ++ render_string k ++ (": ") ++ render_pretty ind v ++
      (",\n") ++ render_obj_items ind f fs
termination_by ind e es => 1 + sizeOf e + sizeOf es
decreasing_by all_goals (simp_wf <;> omega)

end

/-- serde_json::to_string_pretty of the whole Config: the text
save_config writes to the file. -/
def save_config_content (c : Config) : String :=
  render_pretty 0 (Config.toJson c)

/-- serde_json::from_str::<Config>. -/
def decode_config (s : String) : Option Config :=
  (parse_json s).bind Config.fromJson

/-- The parse stage of load_config: contents in, Config out,
unwrap_or_default on failure. -/
def load_config_from_content (s : String) : Config :=
  (decode_config s).getD Config.default

/-- The possible states of the config file on disk. -/
inductive ConfigFile where
  | absent : ConfigFile
  | unreadable : ConfigFile
  | readable : String → ConfigFile

/-- src/config.rs load_config: a missing file yields the derived
default; an unreadable file reads as the empty string
(read_to_string(..).unwrap_or_default()), which then fails to parse;
otherwise the contents are parsed, any failure yielding the default. -/
def load_config (f : ConfigFile) : Config :=
  match f with
  | ConfigFile.absent => Config.default
  | ConfigFile.unreadable => load_config_from_content ("")
  | ConfigFile.readable content => load_config_from_content content

-- ===========================================================================
-- C9: load_config never fails
-- ===========================================================================

/-- C9: load_config never fails the caller: an absent file, an
unreadable file, and unparseable contents all yield the empty default
Config (no provider, no mood, no providers); only well-formed contents
yield their parsed value. -/
theorem load_config_fail_soft :
    load_config ConfigFile.absent = Config.default ∧
    load_config ConfigFile.unreadable = Config.default ∧
    (∀ s, decode_config s = none →
      load_config (ConfigFile.readable s) = Config.default) ∧
    (∀ s c, decode_config s = some c → load_config (ConfigFile.readable s) = c) ∧
    Config.default = ⟨none, none, []⟩ := by
  refine ⟨rfl, rfl, ?_, ?_, rfl⟩
  · intro s h
    simp [load_config, load_config_from_content, h]
  · intro s c h
    simp [load_config, load_config_from_content, h]

theorem load_config_fail_soft_witness :
    load_config (ConfigFile.readable ("not json")) = Config.default :=
  load_config_fail_soft.2.2.1 ("not json") (by decide)

-- ===========================================================================
-- C8: the save/load round trip.  First the document-level round trip
-- (serde Serialize then Deserialize), then parser inverts printer.
-- ===========================================================================

theorem mood_roundtrip (m : Mood) : Mood.fromJson m.toJson = some m := by
  cases m <;> rfl

theorem provider_config_roundtrip (p : ProviderConfig) :
    ProviderConfig.fromJson p.toJson = some p := by
  cases p with
  | mk a b m =>
    simp [ProviderConfig.toJson, ProviderConfig.fromJson, field1, List.filter]

theorem decode_provider_entries_roundtrip (l : List (String × ProviderConfig)) :
    decode_provider_entries (l.map (fun e => (e.1, e.2.toJson))) = some l := by
  induction l with
  | nil => rfl
  | cons e rest ih =>
    cases e with
    | mk k v =>
      simp [decode_provider_entries, provider_config_roundtrip, ih]

theorem config_fromJson_toJson (c : Config) :
    Config.fromJson (Config.toJson c) = some c := by
  cases c with
  | mk prov mood provs =>
    rcases prov with _ | p <;> rcases mood with _ | m <;> try cases m
    all_goals
      simp [Config.toJson, Config.fromJson, field_opt, field1, List.filter,
        decode_provider_entries_roundtrip, Mood.toJson, Mood.fromJson]

mutual

/-- Documents without numeric lexemes (Config serialization never
produces numbers, and the parser returns lexemes verbatim only for
numbers). -/
def no_num : Json → Bool
  | Json.null => true
  | Json.bool _ => true
  | Json.num _ => false
  | Json.str _ => true
  | Json.arr items => no_num_list items
  | Json.obj entries => no_num_entries entries
termination_by j => sizeOf j
decreasing_by all_goals (simp_wf <;> omega)

def no_num_list : List Json → Bool
  | [] => true
  | j :: js => no_num j && no_num_list js
termination_by js => sizeOf js
decreasing_by all_goals (simp_wf <;> omega)

def no_num_entries : List (String × Json) → Bool
  | [] => true
  | (_, v) :: es => no_num v && no_num_entries es
termination_by es => sizeOf es
decreasing_by all_goals (simp_wf <;> omega)

end

mutual

/-- Fuel sufficient for parse_value on the rendering of a document. -/
def jfuel : Json → Nat
  | Json.null => 1
  | Json.bool _ => 1
  | Json.num _ => 1
  | Json.str _ => 1
  | Json.arr items => 2 + jfuel_list items
  | Json.obj entries => 2 + jfuel_entries entries
termination_by j => sizeOf j
decreasing_by all_goals (simp_wf <;> omega)

def jfuel_list : List Json → Nat
  | [] => 0
  | j :: js => 1 + jfuel j + jfuel_list js
termination_by js => sizeOf js
decreasing_by all_goals (simp_wf <;> omega)

def jfuel_entries : List (String × Json) → Nat
  | [] => 0
  | (_, v) :: es => 1 + jfuel v + jfuel_entries es
termination_by es => sizeOf es
decreasing_by all_goals (simp_wf <;> omega)

end

theorem hex_digit_value_hex_lower : ∀ d, d < 16 → hex_digit_value (hex_lower d) = some d := by
  decide

theorem escape_char_length_pos (c : Char) : 1 ≤ (escape_char c).length := by
  unfold escape_char
  split_ifs <;> simp

theorem length_le_escape (s : List Char) :
    s.length ≤ ((s.map escape_char).flatten).length := by
  induction s with
  | nil => simp
  | cons c s ih =>
    simp only [List.map_cons, List.flatten_cons, List.length_append, List.length_cons]
    have h := escape_char_length_pos c
    omega

/-- The string-body parser inverts serde's string escaping: reading an
escaped string followed by the closing quote recovers the original
characters. -/
theorem parse_string_body_escape (s : List Char) :
    ∀ (fuel : Nat), s.length + 1 ≤ fuel → ∀ (rest : List Char),
      parse_string_body fuel ((s.map escape_char).flatten ++ '"' :: rest) = some (s, rest) := by
  induction s with
  | nil =>
    intro fuel hf rest
    obtain ⟨f, rfl⟩ : ∃ f, fuel = f + 1 := ⟨fuel - 1, by omega⟩
    simp [parse_string_body]
  | cons c s ih =>
    intro fuel hf rest
    obtain ⟨f, rfl⟩ : ∃ f, fuel = f + 1 := ⟨fuel - 1, by omega⟩
    have hfs : s.length + 1 ≤ f := by
      simp only [List.length_cons] at hf
      omega
    have ihr := ih f hfs rest
    rw [List.map_cons, List.flatten_cons, List.append_assoc]
    by_cases h1 : c == '"'
    · obtain rfl : c = '"' := eq_of_beq h1
      rw [show escape_char ('"') = ['\\', '"'] from rfl]
      simp [parse_string_body, parse_escape, ihr]
    · by_cases h2 : c == '\\'
      · obtain rfl : c = '\\' := eq_of_beq h2
        rw [show escape_char ('\\') = ['\\', '\\'] from rfl]
        simp [parse_string_body, parse_escape, ihr]
      · by_cases h3 : c == '\x08'
        · obtain rfl : c = '\x08' := eq_of_beq h3
          rw [show escape_char ('\x08') = ['\\', 'b'] from rfl]
          simp [parse_string_body, parse_escape, ihr]
        · by_cases h4 : c == '\t'
          · obtain rfl : c = '\t' := eq_of_beq h4
            rw [show escape_char ('\t') = ['\\', 't'] from rfl]
            simp [parse_string_body, parse_escape, ihr]
          · by_cases h5 : c == '\n'
            · obtain rfl : c = '\n' := eq_of_beq h5
              rw [show escape_char ('\n') = ['\\', 'n'] from rfl]
              simp [parse_string_body, parse_escape, ihr]
            · by_cases h6 : c == '\x0C'
              · obtain rfl : c = '\x0C' := eq_of_beq h6
                rw [show escape_char ('\x0C') = ['\\', 'f'] from rfl]
                simp [parse_string_body, parse_escape, ihr]
              · by_cases h7 : c == '\r'
                · obtain rfl : c = '\r' := eq_of_beq h7
                  rw [show escape_char ('\r') = ['\\', 'r'] from rfl]
                  simp [parse_string_body, parse_escape, ihr]
                · by_cases h8 : c.toNat < 32
                  · have hesc : escape_char c =
                        ['\\', 'u', '0', '0', hex_lower (c.toNat / 16),
                          hex_lower (c.toNat % 16)] := by
                      rw [escape_char, if_neg h1, if_neg h2, if_neg h3, if_neg h4,
                        if_neg h5, if_neg h6, if_neg h7, if_pos h8]
                    rw [hesc]
                    have hA := hex_digit_value_hex_lower (c.toNat / 16) (by omega)
                    have hB := hex_digit_value_hex_lower (c.toNat % 16) (by omega)
                    have hval : 16 * (c.toNat / 16) + c.toNat % 16 = c.toNat := by omega
                    have hs1 : ¬(55296 ≤ c.toNat ∧ c.toNat ≤ 56319) := by omega
                    have hs2 : ¬(56320 ≤ c.toNat ∧ c.toNat ≤ 57343) := by omega
                    have h0 : hex_digit_value '0' = some 0 := by decide
                    simp [parse_string_body, parse_escape, parse_hex4, hA, hB, h0,
                      hval, hs1, hs2, Char.ofNat_toNat, ihr]
                  · have hesc : escape_char c = [c] := by
                      rw [escape_char, if_neg h1, if_neg h2, if_neg h3, if_neg h4,
                        if_neg h5, if_neg h6, if_neg h7, if_neg h8]
                    rw [hesc]
                    have h1f : (c == '"') = false := by simpa using h1
                    have h2f : (c == '\\') = false := by simpa using h2
                    simp [parse_string_body, h1f, h2f, h8, ihr]

theorem data_mk (l : List Char) : (String.mk l).data = l := rfl

theorem skip_ws_append_of_all (ws cs : List Char) (h : ∀ c ∈ ws, is_json_ws c = true) :
    skip_ws (ws ++ cs) = skip_ws cs :=
  dropWhile_append_of_all is_json_ws ws cs h

theorem skip_ws_cons_false (c : Char) (tl : List Char) (hc : is_json_ws c = false) :
    skip_ws (c :: tl) = c :: tl := by
  rw [skip_ws, List.dropWhile_cons, hc]
  simp

theorem indent_chars_ws (n : Nat) : ∀ c ∈ indent_chars n, is_json_ws c = true := by
  intro c hc
  rw [indent_chars] at hc
  have h := List.eq_of_mem_replicate hc
  subst h
  rfl

/-- The rendering of a numeral-free document starts with a
non-whitespace character other than ']' (and other than '\x7d'). -/
theorem render_head (j : Json) (ind : Nat) (h : no_num j = true) :
    ∃ c tl, (render_pretty ind j).data = c :: tl ∧ is_json_ws c = false ∧
      c ≠ ']' ∧ c ≠ '\x7d' := by
  cases j with
  | null =>
    refine ⟨'n', ['u', 'l', 'l'], ?_, rfl, by decide, by decide⟩
    rw [show render_pretty ind Json.null = ("null") from by simp [render_pretty]]
  | bool b =>
    cases b with
    | false =>
      refine ⟨'f', ['a', 'l', 's', 'e'], ?_, rfl, by decide, by decide⟩
      rw [show render_pretty ind (Json.bool false) = ("false") from by simp [render_pretty]]
    | true =>
      refine ⟨'t', ['r', 'u', 'e'], ?_, rfl, by decide, by decide⟩
      rw [show render_pretty ind (Json.bool true) = ("true") from by simp [render_pretty]]
  | num lex => simp [no_num] at h
  | str s =>
    refine ⟨'"', escape_string s ++ ['"'], ?_, rfl, by decide, by decide⟩
    rw [show render_pretty ind (Json.str s) = render_string s from by simp [render_pretty]]
    rfl
  | arr items =>
    cases items with
    | nil =>
      refine ⟨'[', [']'], ?_, rfl, by decide, by decide⟩
      rw [show render_pretty ind (Json.arr []) = ("[]") from by simp [render_pretty]]
    | cons v vs =>
      refine ⟨'[', '\n' :: ((render_arr_items (ind + 1) v vs).data ++
        (('\n' :: indent_chars ind) ++ [']'])), ?_, rfl, by decide, by decide⟩
      rw [show render_pretty ind (Json.arr (v :: vs)) =
        ("[\n") ++ render_arr_items (ind + 1) v vs ++ ("\n") ++
          String.mk (indent_chars ind) ++ ("]") from by simp [render_pretty]]
      simp [String.data_append, data_mk]
  | obj entries =>
    cases entries with
    | nil =>
      refine ⟨'\x7b', ['\x7d'], ?_, rfl, by decide, by decide⟩
      rw [show render_pretty ind (Json.obj []) = ("\x7b\x7d") from by simp [render_pretty]]
    | cons e es =>
      refine ⟨'\x7b', '\n' :: ((render_obj_items (ind + 1) e es).data ++
        (('\n' :: indent_chars ind) ++ ['\x7d'])), ?_, rfl, by decide, by decide⟩
      rw [show render_pretty ind (Json.obj (e :: es)) =
        ("\x7b\n") ++ render_obj_items (ind + 1) e es ++ ("\n") ++
          String.mk (indent_chars ind) ++ ("\x7d") from by simp [render_pretty]]
      simp [String.data_append, data_mk]

theorem skip_ws_arr_items (ind : Nat) (v : Json) (vs : List Json) (X : List Char)
    (hn : no_num v = true) :
    ∃ c t, skip_ws ((render_arr_items ind v vs).data ++ X) = c :: t ∧
      is_json_ws c = false ∧ c ≠ ']' ∧ c ≠ '\x7d' := by
  obtain ⟨c, tl, hd, hws, hne1, hne2⟩ := render_head v ind hn
  cases vs with
  | nil =>
    refine ⟨c, tl ++ X, ?_, hws, hne1, hne2⟩
    have hdata : (render_arr_items ind v []).data ++ X =
        indent_chars ind ++ ((render_pretty ind v).data ++ X) := by
      simp [render_arr_items, String.data_append, data_mk]
    rw [hdata, hd, List.cons_append,
      skip_ws_append_of_all _ _ (indent_chars_ws ind), skip_ws_cons_false _ _ hws]
  | cons w ws' =>
    refine ⟨c, tl ++ (',' :: '\n' :: ((render_arr_items ind w ws').data ++ X)), ?_,
      hws, hne1, hne2⟩
    have hdata : (render_arr_items ind v (w :: ws')).data ++ X =
        indent_chars ind ++ ((render_pretty ind v).data ++
          (',' :: '\n' :: ((render_arr_items ind w ws').data ++ X))) := by
      simp [render_arr_items, String.data_append, data_mk]
    rw [hdata, hd, List.cons_append,
      skip_ws_append_of_all _ _ (indent_chars_ws ind), skip_ws_cons_false _ _ hws]

theorem skip_ws_obj_items (ind : Nat) (k : String) (v : Json)
    (es : List (String × Json)) (X : List Char) :
    ∃ t, skip_ws ((render_obj_items ind (k, v) es).data ++ X) = '"' :: t := by
  cases es with
  | nil =>
    refine ⟨escape_string k ++ ('"' :: (':' :: ' ' :: ((render_pretty ind v).data ++ X))), ?_⟩
    have hdata : (render_obj_items ind (k, v) []).data ++ X =
        indent_chars ind ++ ('"' :: (escape_string k ++
          ('"' :: (':' :: ' ' :: ((render_pretty ind v).data ++ X))))) := by
      simp [render_obj_items, String.data_append, data_mk, render_string]
    rw [hdata, skip_ws_append_of_all _ _ (indent_chars_ws ind),
      skip_ws_cons_false _ _ (by decide)]
  | cons f fs =>
    refine ⟨escape_string k ++ ('"' :: (':' :: ' ' :: ((render_pretty ind v).data ++
      (',' :: '\n' :: ((render_obj_items ind f fs).data ++ X))))), ?_⟩
    have hdata : (render_obj_items ind (k, v) (f :: fs)).data ++ X =
        indent_chars ind ++ ('"' :: (escape_string k ++
          ('"' :: (':' :: ' ' :: ((render_pretty ind v).data ++
            (',' :: '\n' :: ((render_obj_items ind f fs).data ++ X))))))) := by
      simp [render_obj_items, String.data_append, data_mk, render_string]
    rw [hdata, skip_ws_append_of_all _ _ (indent_chars_ws ind),
      skip_ws_cons_false _ _ (by decide)]

theorem mk_data (s : String) : String.mk s.data = s := rfl

theorem ws_append_all (a b : List Char) (ha : ∀ c ∈ a, is_json_ws c = true)
    (hb : ∀ c ∈ b, is_json_ws c = true) : ∀ c ∈ a ++ b, is_json_ws c = true := by
  intro c hc
  rw [List.mem_append] at hc
  rcases hc with hc | hc
  · exact ha c hc
  · exact hb c hc

theorem newline_ws : ∀ c ∈ (['\n'] : List Char), is_json_ws c = true := by
  intro c hc
  simp at hc
  subst hc
  rfl

theorem space_ws : ∀ c ∈ ([' '] : List Char), is_json_ws c = true := by
  intro c hc
  simp at hc
  subst hc
  rfl


mutual

/-- The JSON parser inverts the pretty printer: reading the rendering
of a numeral-free document (after any insignificant whitespace)
recovers the document and leaves exactly the trailing input. -/
theorem parse_render_value (j : Json) (ind : Nat) (ws rest : List Char) (fuel : Nat)
    (hn : no_num j = true) (hf : jfuel j ≤ fuel)
    (hws : ∀ c ∈ ws, is_json_ws c = true) :
    parse_value fuel (ws ++ ((render_pretty ind j).data ++ rest)) = some (j, rest) := by
  cases j with
  | null =>
    simp only [jfuel] at hf
    obtain ⟨f, rfl⟩ : ∃ f, fuel = f + 1 := ⟨fuel - 1, by omega⟩
    have hdata : (render_pretty ind Json.null).data ++ rest =
        'n' :: 'u' :: 'l' :: 'l' :: rest := by
      rw [show render_pretty ind Json.null = ("null") from by simp [render_pretty]]
      rfl
    rw [hdata]
    have hskip : skip_ws (ws ++ ('n' :: 'u' :: 'l' :: 'l' :: rest)) =
        'n' :: 'u' :: 'l' :: 'l' :: rest := by
      rw [skip_ws_append_of_all _ _ hws, skip_ws_cons_false _ _ (by decide)]
    simp only [parse_value]
    rw [hskip]
    simp
  | bool b =>
    simp only [jfuel] at hf
    obtain ⟨f, rfl⟩ : ∃ f, fuel = f + 1 := ⟨fuel - 1, by omega⟩
    cases b with
    | true =>
      have hdata : (render_pretty ind (Json.bool true)).data ++ rest =
          't' :: 'r' :: 'u' :: 'e' :: rest := by
        rw [show render_pretty ind (Json.bool true) = ("true") from by simp [render_pretty]]
        rfl
      rw [hdata]
      have hskip : skip_ws (ws ++ ('t' :: 'r' :: 'u' :: 'e' :: rest)) =
          't' :: 'r' :: 'u' :: 'e' :: rest := by
        rw [skip_ws_append_of_all _ _ hws, skip_ws_cons_false _ _ (by decide)]
      simp only [parse_value]
      rw [hskip]
      simp
    | false =>
      have hdata : (render_pretty ind (Json.bool false)).data ++ rest =
          'f' :: 'a' :: 'l' :: 's' :: 'e' :: rest := by
        rw [show render_pretty ind (Json.bool false) = ("false") from by simp [render_pretty]]
        rfl
      rw [hdata]
      have hskip : skip_ws (ws ++ ('f' :: 'a' :: 'l' :: 's' :: 'e' :: rest)) =
          'f' :: 'a' :: 'l' :: 's' :: 'e' :: rest := by
        rw [skip_ws_append_of_all _ _ hws, skip_ws_cons_false _ _ (by decide)]
      simp only [parse_value]
      rw [hskip]
      simp
  | num lex => simp [no_num] at hn
  | str s =>
    simp only [jfuel] at hf
    obtain ⟨f, rfl⟩ : ∃ f, fuel = f + 1 := ⟨fuel - 1, by omega⟩
    have hdata : (render_pretty ind (Json.str s)).data ++ rest =
        '"' :: ((s.data.map escape_char).flatten ++ ('"' :: rest)) := by
      rw [show render_pretty ind (Json.str s) = render_string s from by simp [render_pretty]]
      show ('"' :: (escape_string s ++ ['"'])) ++ rest = _
      simp [escape_string]
    rw [hdata]
    have hskip : skip_ws (ws ++ ('"' :: ((s.data.map escape_char).flatten ++ ('"' :: rest)))) =
        '"' :: ((s.data.map escape_char).flatten ++ ('"' :: rest)) := by
      rw [skip_ws_append_of_all _ _ hws, skip_ws_cons_false _ _ (by decide)]
    have hlen : s.data.length + 1 ≤
        ((s.data.map escape_char).flatten ++ ('"' :: rest)).length + 1 := by
      have h := length_le_escape s.data
      simp only [List.length_append, List.length_cons]
      omega
    have hsb := parse_string_body_escape s.data _ hlen rest
    simp only [parse_value]
    rw [hskip]
    try dsimp only
    rw [if_pos (show (('"' : Char) == '"') = true by rfl), hsb]
  | arr items =>
    cases items with
    | nil =>
      simp only [jfuel, jfuel_list] at hf
      obtain ⟨f, rfl⟩ : ∃ f, fuel = f + 1 := ⟨fuel - 1, by omega⟩
      obtain ⟨g, rfl⟩ : ∃ g, f = g + 1 := ⟨f - 1, by omega⟩
      have hdata : (render_pretty ind (Json.arr [])).data ++ rest = '[' :: (']' :: rest) := by
        rw [show render_pretty ind (Json.arr []) = ("[]") from by simp [render_pretty]]
        rfl
      rw [hdata]
      have hskip : skip_ws (ws ++ ('[' :: (']' :: rest))) = '[' :: (']' :: rest) := by
        rw [skip_ws_append_of_all _ _ hws, skip_ws_cons_false _ _ (by decide)]
      have hskip2 : skip_ws (']' :: rest) = ']' :: rest := skip_ws_cons_false _ _ (by decide)
      simp only [parse_value]
      rw [hskip]
      try dsimp only
      rw [if_neg (show ¬(('[' : Char) == '"') = true by decide),
        if_neg (show ¬(('[' : Char) == '\x7b') = true by decide),
        if_pos (show (('[' : Char) == '[') = true by rfl)]
      simp only [parse_array_after_bracket]
      rw [hskip2]
      rfl
    | cons v vs =>
      simp only [no_num, no_num_list, Bool.and_eq_true] at hn
      simp only [jfuel, jfuel_list] at hf
      obtain ⟨f, rfl⟩ : ∃ f, fuel = f + 1 := ⟨fuel - 1, by omega⟩
      obtain ⟨g, rfl⟩ : ∃ g, f = g + 1 := ⟨f - 1, by omega⟩
      have hdata : (render_pretty ind (Json.arr (v :: vs))).data ++ rest =
          '[' :: ('\n' :: ((render_arr_items (ind + 1) v vs).data ++
            (('\n' :: indent_chars ind) ++ (']' :: rest)))) := by
        rw [show render_pretty ind (Json.arr (v :: vs)) =
          ("[\n") ++ render_arr_items (ind + 1) v vs ++ ("\n") ++
            String.mk (indent_chars ind) ++ ("]") from by simp [render_pretty]]
        simp [String.data_append, data_mk]
      rw [hdata]
      have hskip : skip_ws (ws ++ ('[' :: ('\n' :: ((render_arr_items (ind + 1) v vs).data ++
          (('\n' :: indent_chars ind) ++ (']' :: rest)))))) =
          '[' :: ('\n' :: ((render_arr_items (ind + 1) v vs).data ++
            (('\n' :: indent_chars ind) ++ (']' :: rest)))) := by
        rw [skip_ws_append_of_all _ _ hws, skip_ws_cons_false _ _ (by decide)]
      obtain ⟨c0, t0, hsk2, hws0, hne0, _⟩ :=
        skip_ws_arr_items (ind + 1) v vs (('\n' :: indent_chars ind) ++ (']' :: rest)) hn.1
      have hsk3 : skip_ws ('\n' :: ((render_arr_items (ind + 1) v vs).data ++
          (('\n' :: indent_chars ind) ++ (']' :: rest)))) = c0 :: t0 := by
        rw [show ('\n' :: ((render_arr_items (ind + 1) v vs).data ++
            (('\n' :: indent_chars ind) ++ (']' :: rest))) : List Char) =
          ['\n'] ++ ((render_arr_items (ind + 1) v vs).data ++
            (('\n' :: indent_chars ind) ++ (']' :: rest))) from rfl,
          skip_ws_append_of_all _ _ newline_ws, hsk2]
      have harr := parse_render_arr v vs (ind + 1) (['\n'])
        ('\n' :: indent_chars ind) rest g hn.1 hn.2
        (by simp only [jfuel_list]; omega) newline_ws
        (by
          intro c hc
          rcases List.mem_cons.mp hc with rfl | hc
          · rfl
          · exact indent_chars_ws ind c hc)
      simp only [parse_value]
      rw [hskip]
      try dsimp only
      rw [if_neg (show ¬(('[' : Char) == '"') = true by decide),
        if_neg (show ¬(('[' : Char) == '\x7b') = true by decide),
        if_pos (show (('[' : Char) == '[') = true by rfl)]
      simp only [parse_array_after_bracket]
      rw [hsk3]
      split
      · rename_i heq
        rw [List.cons.injEq] at heq
        exact absurd heq.1 hne0
      · rw [show ('\n' :: ((render_arr_items (ind + 1) v vs).data ++
            (('\n' :: indent_chars ind) ++ (']' :: rest))) : List Char) =
          ['\n'] ++ ((render_arr_items (ind + 1) v vs).data ++
            (('\n' :: indent_chars ind) ++ (']' :: rest))) from rfl, harr]
  | obj entries =>
    cases entries with
    | nil =>
      simp only [jfuel, jfuel_entries] at hf
      obtain ⟨f, rfl⟩ : ∃ f, fuel = f + 1 := ⟨fuel - 1, by omega⟩
      obtain ⟨g, rfl⟩ : ∃ g, f = g + 1 := ⟨f - 1, by omega⟩
      have hdata : (render_pretty ind (Json.obj [])).data ++ rest =
          '\x7b' :: ('\x7d' :: rest) := by
        rw [show render_pretty ind (Json.obj []) = ("\x7b\x7d") from by simp [render_pretty]]
        rfl
      rw [hdata]
      have hskip : skip_ws (ws ++ ('\x7b' :: ('\x7d' :: rest))) =
          '\x7b' :: ('\x7d' :: rest) := by
        rw [skip_ws_append_of_all _ _ hws, skip_ws_cons_false _ _ (by decide)]
      have hskip2 : skip_ws ('\x7d' :: rest) = '\x7d' :: rest :=
        skip_ws_cons_false _ _ (by decide)
      simp only [parse_value]
      rw [hskip]
      try dsimp only
      rw [if_neg (show ¬(('\x7b' : Char) == '"') = true by decide),
        if_pos (show (('\x7b' : Char) == '\x7b') = true by rfl)]
      simp only [parse_object_after_brace]
      rw [hskip2]
      rfl
    | cons e es =>
      obtain ⟨k, v⟩ := e
      simp only [no_num, no_num_entries, Bool.and_eq_true] at hn
      simp only [jfuel, jfuel_entries] at hf
      obtain ⟨f, rfl⟩ : ∃ f, fuel = f + 1 := ⟨fuel - 1, by omega⟩
      obtain ⟨g, rfl⟩ : ∃ g, f = g + 1 := ⟨f - 1, by omega⟩
      have hdata : (render_pretty ind (Json.obj ((k, v) :: es))).data ++ rest =
          '\x7b' :: ('\n' :: ((render_obj_items (ind + 1) (k, v) es).data ++
            (('\n' :: indent_chars ind) ++ ('\x7d' :: rest)))) := by
        rw [show render_pretty ind (Json.obj ((k, v) :: es)) =
          ("\x7b\n") ++ render_obj_items (ind + 1) (k, v) es ++ ("\n") ++
            String.mk (indent_chars ind) ++ ("\x7d") from by simp [render_pretty]]
        simp [String.data_append, data_mk]
      rw [hdata]
      have hskip : skip_ws (ws ++ ('\x7b' :: ('\n' ::
          ((render_obj_items (ind + 1) (k, v) es).data ++
            (('\n' :: indent_chars ind) ++ ('\x7d' :: rest)))))) =
          '\x7b' :: ('\n' :: ((render_obj_items (ind + 1) (k, v) es).data ++
            (('\n' :: indent_chars ind) ++ ('\x7d' :: rest)))) := by
        rw [skip_ws_append_of_all _ _ hws, skip_ws_cons_false _ _ (by decide)]
      obtain ⟨t0, hsk2⟩ :=
        skip_ws_obj_items (ind + 1) k v es (('\n' :: indent_chars ind) ++ ('\x7d' :: rest))
      have hsk3 : skip_ws ('\n' :: ((render_obj_items (ind + 1) (k, v) es).data ++
          (('\n' :: indent_chars ind) ++ ('\x7d' :: rest)))) = '"' :: t0 := by
        rw [show ('\n' :: ((render_obj_items (ind + 1) (k, v) es).data ++
            (('\n' :: indent_chars ind) ++ ('\x7d' :: rest))) : List Char) =
          ['\n'] ++ ((render_obj_items (ind + 1) (k, v) es).data ++
            (('\n' :: indent_chars ind) ++ ('\x7d' :: rest))) from rfl,
          skip_ws_append_of_all _ _ newline_ws, hsk2]
      have hobj := parse_render_obj k v es (ind + 1) (['\n'])
        ('\n' :: indent_chars ind) rest g hn.1 hn.2
        (by simp only [jfuel_entries]; omega) newline_ws
        (by
          intro c hc
          rcases List.mem_cons.mp hc with rfl | hc
          · rfl
          · exact indent_chars_ws ind c hc)
      simp only [parse_value]
      rw [hskip]
      try dsimp only
      rw [if_neg (show ¬(('\x7b' : Char) == '"') = true by decide),
        if_pos (show (('\x7b' : Char) == '\x7b') = true by rfl)]
      simp only [parse_object_after_brace]
      rw [hsk3]
      split
      · rename_i heq
        rw [List.cons.injEq] at heq
        exact absurd heq.1 (by decide)
      · rw [show ('\n' :: ((render_obj_items (ind + 1) (k, v) es).data ++
            (('\n' :: indent_chars ind) ++ ('\x7d' :: rest))) : List Char) =
          ['\n'] ++ ((render_obj_items (ind + 1) (k, v) es).data ++
            (('\n' :: indent_chars ind) ++ ('\x7d' :: rest))) from rfl, hobj]
termination_by fuel
decreasing_by all_goals (simp_wf <;> omega)

theorem parse_render_arr (v : Json) (vs : List Json) (ind : Nat)
    (ws1 ws2 rest : List Char) (fuel : Nat)
    (hn : no_num v = true) (hns : no_num_list vs = true)
    (hf : jfuel_list (v :: vs) ≤ fuel)
    (hws1 : ∀ c ∈ ws1, is_json_ws c = true) (hws2 : ∀ c ∈ ws2, is_json_ws c = true) :
    parse_array_items fuel
        (ws1 ++ ((render_arr_items ind v vs).data ++ (ws2 ++ (']' :: rest)))) =
      some (v :: vs, rest) := by
  cases vs with
  | nil =>
    simp only [jfuel_list] at hf
    obtain ⟨f, rfl⟩ : ∃ f, fuel = f + 1 := ⟨fuel - 1, by omega⟩
    have hdata : (ws1 ++ ((render_arr_items ind v []).data ++
        (ws2 ++ (']' :: rest))) : List Char) =
        (ws1 ++ indent_chars ind) ++ ((render_pretty ind v).data ++ (ws2 ++ (']' :: rest))) := by
      simp [render_arr_items, String.data_append, data_mk]
    have hv := parse_render_value v ind (ws1 ++ indent_chars ind) (ws2 ++ (']' :: rest)) f
      hn (by omega) (ws_append_all _ _ hws1 (indent_chars_ws ind))
    have hskip2 : skip_ws (ws2 ++ (']' :: rest)) = ']' :: rest := by
      rw [skip_ws_append_of_all _ _ hws2, skip_ws_cons_false _ _ (by decide)]
    rw [hdata]
    simp only [parse_array_items]
    rw [hv]
    dsimp only
    rw [hskip2]
    rfl
  | cons w ws' =>
    simp only [no_num_list, Bool.and_eq_true] at hns
    simp only [jfuel_list] at hf
    obtain ⟨f, rfl⟩ : ∃ f, fuel = f + 1 := ⟨fuel - 1, by omega⟩
    have hdata : (ws1 ++ ((render_arr_items ind v (w :: ws')).data ++
        (ws2 ++ (']' :: rest))) : List Char) =
        (ws1 ++ indent_chars ind) ++ ((render_pretty ind v).data ++
          (',' :: '\n' :: ((render_arr_items ind w ws').data ++ (ws2 ++ (']' :: rest))))) := by
      simp [render_arr_items, String.data_append, data_mk]
    have hv := parse_render_value v ind (ws1 ++ indent_chars ind)
      (',' :: '\n' :: ((render_arr_items ind w ws').data ++ (ws2 ++ (']' :: rest)))) f
      hn (by omega) (ws_append_all _ _ hws1 (indent_chars_ws ind))
    have hskip2 : skip_ws (',' :: '\n' :: ((render_arr_items ind w ws').data ++
        (ws2 ++ (']' :: rest)))) = ',' :: '\n' :: ((render_arr_items ind w ws').data ++
        (ws2 ++ (']' :: rest))) :=
      skip_ws_cons_false _ _ (by decide)
    have hrec := parse_render_arr w ws' ind (['\n']) ws2 rest f hns.1 hns.2
      (by simp only [jfuel_list]; omega) newline_ws hws2
    rw [hdata]
    simp only [parse_array_items]
    rw [hv]
    dsimp only
    rw [hskip2]
    split
    · rename_i r2 heq
      rw [List.cons.injEq] at heq
      obtain ⟨-, rfl⟩ := heq
      rw [show ('\n' :: ((render_arr_items ind w ws').data ++ (ws2 ++ (']' :: rest))) : List Char) =
        ['\n'] ++ ((render_arr_items ind w ws').data ++ (ws2 ++ (']' :: rest))) from rfl, hrec]
    · rename_i r2 heq
      simp at heq
    · rename_i hn1 hn2
      exact absurd rfl (hn1 ('\n' :: ((render_arr_items ind w ws').data ++ (ws2 ++ (']' :: rest)))))
termination_by fuel
decreasing_by all_goals (simp_wf <;> omega)

theorem parse_render_obj (k : String) (v : Json) (es : List (String × Json)) (ind : Nat)
    (ws1 ws2 rest : List Char) (fuel : Nat)
    (hn : no_num v = true) (hns : no_num_entries es = true)
    (hf : jfuel_entries ((k, v) :: es) ≤ fuel)
    (hws1 : ∀ c ∈ ws1, is_json_ws c = true) (hws2 : ∀ c ∈ ws2, is_json_ws c = true) :
    parse_object_items fuel
        (ws1 ++ ((render_obj_items ind (k, v) es).data ++ (ws2 ++ ('\x7d' :: rest)))) =
      some ((k, v) :: es, rest) := by
  cases es with
  | nil =>
    simp only [jfuel_entries] at hf
    obtain ⟨f, rfl⟩ : ∃ f, fuel = f + 1 := ⟨fuel - 1, by omega⟩
    have hdata : (ws1 ++ ((render_obj_items ind (k, v) []).data ++
        (ws2 ++ ('\x7d' :: rest))) : List Char) =
        (ws1 ++ indent_chars ind) ++ ('"' :: ((k.data.map escape_char).flatten ++
          ('"' :: (':' :: (' ' :: ((render_pretty ind v).data ++
            (ws2 ++ ('\x7d' :: rest)))))))) := by
      simp [render_obj_items, render_string, escape_string, String.data_append, data_mk]
    have hskip : skip_ws ((ws1 ++ indent_chars ind) ++
        ('"' :: ((k.data.map escape_char).flatten ++
          ('"' :: (':' :: (' ' :: ((render_pretty ind v).data ++
            (ws2 ++ ('\x7d' :: rest))))))))) =
        '"' :: ((k.data.map escape_char).flatten ++
          ('"' :: (':' :: (' ' :: ((render_pretty ind v).data ++
            (ws2 ++ ('\x7d' :: rest))))))) := by
      rw [skip_ws_append_of_all _ _ (ws_append_all _ _ hws1 (indent_chars_ws ind)),
        skip_ws_cons_false _ _ (by decide)]
    have hlen : k.data.length + 1 ≤ ((k.data.map escape_char).flatten ++
        ('"' :: (':' :: (' ' :: ((render_pretty ind v).data ++
          (ws2 ++ ('\x7d' :: rest))))))).length + 1 := by
      have h := length_le_escape k.data
      simp only [List.length_append, List.length_cons]
      omega
    have hsb := parse_string_body_escape k.data _ hlen
      (':' :: (' ' :: ((render_pretty ind v).data ++ (ws2 ++ ('\x7d' :: rest)))))
    have hskipc : skip_ws (':' :: (' ' :: ((render_pretty ind v).data ++
        (ws2 ++ ('\x7d' :: rest))))) = ':' :: (' ' :: ((render_pretty ind v).data ++
        (ws2 ++ ('\x7d' :: rest)))) :=
      skip_ws_cons_false _ _ (by decide)
    have hv := parse_render_value v ind ([' ']) (ws2 ++ ('\x7d' :: rest)) f
      hn (by omega) space_ws
    have hskipd : skip_ws (ws2 ++ ('\x7d' :: rest)) = '\x7d' :: rest := by
      rw [skip_ws_append_of_all _ _ hws2, skip_ws_cons_false _ _ (by decide)]
    rw [hdata]
    simp only [parse_object_items]
    rw [hskip]
    split
    · rename_i rest1 heq
      rw [List.cons.injEq] at heq
      obtain ⟨-, rfl⟩ := heq
      rw [hsb]
      dsimp only
      rw [hskipc]
      split
      · rename_i r2 heq2
        rw [List.cons.injEq] at heq2
        obtain ⟨-, rfl⟩ := heq2
        rw [show (' ' :: ((render_pretty ind v).data ++ (ws2 ++ ('\x7d' :: rest))) : List Char) =
          [' '] ++ ((render_pretty ind v).data ++ (ws2 ++ ('\x7d' :: rest))) from rfl, hv]
        dsimp only
        rw [hskipd]
        split
        · rename_i r4 heq4
          simp at heq4
        · rename_i r4 heq4
          rw [List.cons.injEq] at heq4
          obtain ⟨-, rfl⟩ := heq4
          rw [mk_data]
        · rename_i hn1 hn2
          exact absurd rfl (hn2 rest)
      · rename_i hno
        exact absurd rfl (hno (' ' :: ((render_pretty ind v).data ++ (ws2 ++ ('\x7d' :: rest)))))
    · rename_i hno
      exact absurd rfl (hno ((k.data.map escape_char).flatten ++
        ('"' :: (':' :: (' ' :: ((render_pretty ind v).data ++ (ws2 ++ ('\x7d' :: rest))))))))
  | cons e2 es2 =>
    obtain ⟨k2, v2⟩ := e2
    simp only [no_num_entries, Bool.and_eq_true] at hns
    simp only [jfuel_entries] at hf
    obtain ⟨f, rfl⟩ : ∃ f, fuel = f + 1 := ⟨fuel - 1, by omega⟩
    have hdata : (ws1 ++ ((render_obj_items ind (k, v) ((k2, v2) :: es2)).data ++
        (ws2 ++ ('\x7d' :: rest))) : List Char) =
        (ws1 ++ indent_chars ind) ++ ('"' :: ((k.data.map escape_char).flatten ++
          ('"' :: (':' :: (' ' :: ((render_pretty ind v).data ++
            (',' :: '\n' :: ((render_obj_items ind (k2, v2) es2).data ++
              (ws2 ++ ('\x7d' :: rest)))))))))) := by
      simp [render_obj_items, render_string, escape_string, String.data_append, data_mk]
    have hskip : skip_ws ((ws1 ++ indent_chars ind) ++
        ('"' :: ((k.data.map escape_char).flatten ++
          ('"' :: (':' :: (' ' :: ((render_pretty ind v).data ++
            (',' :: '\n' :: ((render_obj_items ind (k2, v2) es2).data ++
              (ws2 ++ ('\x7d' :: rest))))))))))) =
        '"' :: ((k.data.map escape_char).flatten ++
          ('"' :: (':' :: (' ' :: ((render_pretty ind v).data ++
            (',' :: '\n' :: ((render_obj_items ind (k2, v2) es2).data ++
              (ws2 ++ ('\x7d' :: rest))))))))) := by
      rw [skip_ws_append_of_all _ _ (ws_append_all _ _ hws1 (indent_chars_ws ind)),
        skip_ws_cons_false _ _ (by decide)]
    have hlen : k.data.length + 1 ≤ ((k.data.map escape_char).flatten ++
        ('"' :: (':' :: (' ' :: ((render_pretty ind v).data ++
          (',' :: '\n' :: ((render_obj_items ind (k2, v2) es2).data ++
            (ws2 ++ ('\x7d' :: rest))))))))).length + 1 := by
      have h := length_le_escape k.data
      simp only [List.length_append, List.length_cons]
      omega
    have hsb := parse_string_body_escape k.data _ hlen
      (':' :: (' ' :: ((render_pretty ind v).data ++
        (',' :: '\n' :: ((render_obj_items ind (k2, v2) es2).data ++
          (ws2 ++ ('\x7d' :: rest)))))))
    have hskipc : skip_ws (':' :: (' ' :: ((render_pretty ind v).data ++
        (',' :: '\n' :: ((render_obj_items ind (k2, v2) es2).data ++
          (ws2 ++ ('\x7d' :: rest))))))) =
        ':' :: (' ' :: ((render_pretty ind v).data ++
          (',' :: '\n' :: ((render_obj_items ind (k2, v2) es2).data ++
            (ws2 ++ ('\x7d' :: rest)))))) :=
      skip_ws_cons_false _ _ (by decide)
    have hv := parse_render_value v ind ([' '])
      (',' :: '\n' :: ((render_obj_items ind (k2, v2) es2).data ++
        (ws2 ++ ('\x7d' :: rest)))) f hn (by omega) space_ws
    have hskipd : skip_ws (',' :: '\n' :: ((render_obj_items ind (k2, v2) es2).data ++
        (ws2 ++ ('\x7d' :: rest)))) =
        ',' :: '\n' :: ((render_obj_items ind (k2, v2) es2).data ++
          (ws2 ++ ('\x7d' :: rest))) :=
      skip_ws_cons_false _ _ (by decide)
    have hrec := parse_render_obj k2 v2 es2 ind (['\n']) ws2 rest f hns.1 hns.2
      (by simp only [jfuel_entries]; omega) newline_ws hws2
    rw [hdata]
    simp only [parse_object_items]
    rw [hskip]
    split
    · rename_i rest1 heq
      rw [List.cons.injEq] at heq
      obtain ⟨-, rfl⟩ := heq
      rw [hsb]
      dsimp only
      rw [hskipc]
      split
      · rename_i r2 heq2
        rw [List.cons.injEq] at heq2
        obtain ⟨-, rfl⟩ := heq2
        rw [show (' ' :: ((render_pretty ind v).data ++
            (',' :: '\n' :: ((render_obj_items ind (k2, v2) es2).data ++
              (ws2 ++ ('\x7d' :: rest))))) : List Char) =
          [' '] ++ ((render_pretty ind v).data ++
            (',' :: '\n' :: ((render_obj_items ind (k2, v2) es2).data ++
              (ws2 ++ ('\x7d' :: rest))))) from rfl, hv]
        dsimp only
        rw [hskipd]
        split
        · rename_i r4 heq4
          rw [List.cons.injEq] at heq4
          obtain ⟨-, rfl⟩ := heq4
          rw [show ('\n' :: ((render_obj_items ind (k2, v2) es2).data ++
              (ws2 ++ ('\x7d' :: rest))) : List Char) =
            ['\n'] ++ ((render_obj_items ind (k2, v2) es2).data ++
              (ws2 ++ ('\x7d' :: rest))) from rfl, hrec]
        · rename_i r4 heq4
          simp at heq4
        · rename_i hn1 hn2
          exact absurd rfl (hn1 ('\n' :: ((render_obj_items ind (k2, v2) es2).data ++
            (ws2 ++ ('\x7d' :: rest)))))
      · rename_i hno
        exact absurd rfl (hno (' ' :: ((render_pretty ind v).data ++
          (',' :: '\n' :: ((render_obj_items ind (k2, v2) es2).data ++
            (ws2 ++ ('\x7d' :: rest)))))))
    · rename_i hno
      exact absurd rfl (hno ((k.data.map escape_char).flatten ++
        ('"' :: (':' :: (' ' :: ((render_pretty ind v).data ++
          (',' :: '\n' :: ((render_obj_items ind (k2, v2) es2).data ++
            (ws2 ++ ('\x7d' :: rest))))))))))
termination_by fuel
decreasing_by all_goals (simp_wf <;> omega)

end

theorem json_sizeOf_pos (j : Json) : 1 ≤ sizeOf j := by
  cases j <;> simp <;> omega

theorem render_string_length_pos (s : String) : 1 ≤ (render_string s).data.length := by
  show 1 ≤ ('"' :: (escape_string s ++ ['"'])).length
  simp

/-- The fuel needed to parse a rendering never exceeds the rendering's
length (numeral-free documents). -/
theorem jfuel_bound (N : Nat) :
    (∀ j, no_num j = true → sizeOf j ≤ N → ∀ ind,
      jfuel j ≤ (render_pretty ind j).data.length) ∧
    (∀ v vs, no_num v = true → no_num_list vs = true → sizeOf v + sizeOf vs ≤ N →
      ∀ ind, 1 ≤ ind → jfuel_list (v :: vs) ≤ (render_arr_items ind v vs).data.length) ∧
    (∀ k v es, no_num v = true → no_num_entries es = true → sizeOf v + sizeOf es ≤ N →
      ∀ ind, jfuel_entries ((k, v) :: es) ≤ (render_obj_items ind (k, v) es).data.length) := by
  induction N with
  | zero =>
    refine ⟨?_, ?_, ?_⟩
    · intro j _ hsz
      have := json_sizeOf_pos j
      omega
    · intro v vs _ _ hsz
      have := json_sizeOf_pos v
      omega
    · intro k v es _ _ hsz
      have := json_sizeOf_pos v
      omega
  | succ N ih =>
    obtain ⟨ih1, ih2, ih3⟩ := ih
    refine ⟨?_, ?_, ?_⟩
    · intro j hn hsz ind
      cases j with
      | null =>
        rw [show render_pretty ind Json.null = ("null") from by simp [render_pretty]]
        simp [jfuel]
      | bool b =>
        cases b with
        | true =>
          rw [show render_pretty ind (Json.bool true) = ("true") from by simp [render_pretty]]
          simp [jfuel]
        | false =>
          rw [show render_pretty ind (Json.bool false) = ("false") from by simp [render_pretty]]
          simp [jfuel]
      | num lex => simp [no_num] at hn
      | str s =>
        rw [show render_pretty ind (Json.str s) = render_string s from by simp [render_pretty]]
        have h := render_string_length_pos s
        simp only [jfuel]
        omega
      | arr items =>
        cases items with
        | nil =>
          rw [show render_pretty ind (Json.arr []) = ("[]") from by simp [render_pretty]]
          simp [jfuel, jfuel_list]
        | cons v vs =>
          simp only [no_num, no_num_list, Bool.and_eq_true] at hn
          simp only [Json.arr.sizeOf_spec, List.cons.sizeOf_spec] at hsz
          have hlen : (render_pretty ind (Json.arr (v :: vs))).data.length =
              (render_arr_items (ind + 1) v vs).data.length + 4 + 2 * ind := by
            rw [show render_pretty ind (Json.arr (v :: vs)) =
              ("[\n") ++ render_arr_items (ind + 1) v vs ++ ("\n") ++
                String.mk (indent_chars ind) ++ ("]") from by simp [render_pretty]]
            simp [String.data_append, data_mk, indent_chars]
            omega
          have h2 := ih2 v vs hn.1 hn.2 (by omega) (ind + 1) (by omega)
          simp only [jfuel]
          omega
      | obj entries =>
        cases entries with
        | nil =>
          rw [show render_pretty ind (Json.obj []) = ("\x7b\x7d") from by simp [render_pretty]]
          simp [jfuel, jfuel_entries]
        | cons e es =>
          obtain ⟨k, v⟩ := e
          simp only [no_num, no_num_entries, Bool.and_eq_true] at hn
          simp only [Json.obj.sizeOf_spec, List.cons.sizeOf_spec, Prod.mk.sizeOf_spec] at hsz
          have hlen : (render_pretty ind (Json.obj ((k, v) :: es))).data.length =
              (render_obj_items (ind + 1) (k, v) es).data.length + 4 + 2 * ind := by
            rw [show render_pretty ind (Json.obj ((k, v) :: es)) =
              ("\x7b\n") ++ render_obj_items (ind + 1) (k, v) es ++ ("\n") ++
                String.mk (indent_chars ind) ++ ("\x7d") from by simp [render_pretty]]
            simp [String.data_append, data_mk, indent_chars]
            omega
          have h3 := ih3 k v es hn.1 hn.2 (by omega) (ind + 1)
          simp only [jfuel]
          omega
    · intro v vs hn hns hsz ind hind
      cases vs with
      | nil =>
        have hlen : (render_arr_items ind v []).data.length =
            2 * ind + (render_pretty ind v).data.length := by
          have hdata : (render_arr_items ind v []).data =
              indent_chars ind ++ (render_pretty ind v).data := by
            simp [render_arr_items, String.data_append, data_mk]
          rw [hdata]
          simp [indent_chars]
        have h1 := ih1 v hn (by simp at hsz; omega) ind
        simp only [jfuel_list]
        omega
      | cons w ws' =>
        simp only [no_num_list, Bool.and_eq_true] at hns
        simp only [List.cons.sizeOf_spec] at hsz
        have hvpos := json_sizeOf_pos v
        have hwpos := json_sizeOf_pos w
        have hlen : (render_arr_items ind v (w :: ws')).data.length =
            2 * ind + (render_pretty ind v).data.length + 2 +
              (render_arr_items ind w ws').data.length := by
          have hdata : (render_arr_items ind v (w :: ws')).data =
              indent_chars ind ++ ((render_pretty ind v).data ++
                (',' :: '\n' :: (render_arr_items ind w ws').data)) := by
            simp [render_arr_items, String.data_append, data_mk]
          rw [hdata]
          simp [indent_chars]
          omega
        have h1 := ih1 v hn (by omega) ind
        have h2 := ih2 w ws' hns.1 hns.2 (by omega) ind hind
        simp only [jfuel_list] at h2 ⊢
        omega
    · intro k v es hn hns hsz ind
      cases es with
      | nil =>
        have hlen : (render_obj_items ind (k, v) []).data.length =
            2 * ind + (render_string k).data.length + 2 +
              (render_pretty ind v).data.length := by
          have hdata : (render_obj_items ind (k, v) []).data =
              indent_chars ind ++ ((render_string k).data ++
                (':' :: ' ' :: (render_pretty ind v).data)) := by
            simp [render_obj_items, String.data_append, data_mk]
          rw [hdata]
          simp [indent_chars]
          omega
        have h1 := ih1 v hn (by simp at hsz; omega) ind
        simp only [jfuel_entries]
        omega
      | cons e2 es2 =>
        obtain ⟨k2, v2⟩ := e2
        simp only [no_num_entries, Bool.and_eq_true] at hns
        simp only [List.cons.sizeOf_spec, Prod.mk.sizeOf_spec] at hsz
        have hvpos := json_sizeOf_pos v
        have hv2pos := json_sizeOf_pos v2
        have hlen : (render_obj_items ind (k, v) ((k2, v2) :: es2)).data.length =
            2 * ind + (render_string k).data.length + 2 +
              (render_pretty ind v).data.length + 2 +
              (render_obj_items ind (k2, v2) es2).data.length := by
          have hdata : (render_obj_items ind (k, v) ((k2, v2) :: es2)).data =
              indent_chars ind ++ ((render_string k).data ++
                (':' :: ' ' :: ((render_pretty ind v).data ++
                  (',' :: '\n' :: (render_obj_items ind (k2, v2) es2).data)))) := by
            simp [render_obj_items, String.data_append, data_mk]
          rw [hdata]
          simp [indent_chars]
          omega
        have h1 := ih1 v hn (by omega) ind
        have h3 := ih3 k2 v2 es2 hns.1 hns.2 (by
          have : 1 ≤ sizeOf k2 := by
            cases k2
            simp
          omega) ind
        simp only [jfuel_entries] at h3 ⊢
        omega

theorem no_num_provider (p : ProviderConfig) : no_num (ProviderConfig.toJson p) = true := by
  cases p with
  | mk a b m => simp [ProviderConfig.toJson, no_num, no_num_entries]

theorem no_num_provider_entries (l : List (String × ProviderConfig)) :
    no_num_entries (l.map (fun e => (e.1, e.2.toJson))) = true := by
  induction l with
  | nil => simp [no_num_entries]
  | cons e rest ih =>
    cases e with
    | mk k v => simp [no_num_entries, no_num_provider, ih]

/-- Config serialization never produces numeric lexemes. -/
theorem no_num_config (c : Config) : no_num (Config.toJson c) = true := by
  cases c with
  | mk prov mood provs =>
    rcases prov with _ | p <;> rcases mood with _ | m <;> try cases m
    all_goals
      simp [Config.toJson, no_num, no_num_entries, Mood.toJson, no_num_provider_entries]

/-- Parsing the pretty rendering of a numeral-free document recovers
it (serde_json from_str ∘ to_string_pretty at the document level). -/
theorem parse_json_render (j : Json) (hn : no_num j = true) :
    parse_json (render_pretty 0 j) = some j := by
  rw [parse_json]
  have hb := (jfuel_bound (sizeOf j)).1 j hn (le_refl _) 0
  have h := parse_render_value j 0 [] [] (2 * (render_pretty 0 j).data.length + 2) hn
    (by omega) (by intro c hc; simp at hc)
  rw [show (([] : List Char) ++ ((render_pretty 0 j).data ++ [])) =
    (render_pretty 0 j).data from by simp] at h
  rw [h]
  rfl

/-- C8: saving a Config with save_config and loading it back with
load_config preserves the active provider, the active mood, and every
provider's api_key, base_url, and model exactly: serialization
followed by deserialization is the identity on the Config data. -/
theorem config_save_load_roundtrip (c : Config) :
    load_config (ConfigFile.readable (save_config_content c)) = c := by
  show load_config_from_content (save_config_content c) = c
  rw [load_config_from_content, decode_config, save_config_content,
    parse_json_render _ (no_num_config c)]
  simp [config_fromJson_toJson]
